import Mathlib

/-!
Verification of the xpore `diffmod/io.py` module: a shallow embedding of
`get_dummies`, `load_data`, `save_models`, `load_models`,
`get_result_table_header`, `get_ordered_condition_run_names` and
`generate_result_table`, together with theorems settling the specification
claims about them.

Embedding conventions:
* Python dicts become association lists (`List (κ × ν)`); dict lookups that
  can raise `KeyError`, and list indexing that can raise `IndexError`,
  become `Option`-valued operations, so fallible functions return `Option`.
* Normalized signal values (Python floats) are represented by `Int`; none of
  the verified claims depends on arithmetic over them.  Statistics values
  are represented by `Rat`.
* Python byte strings and text strings are both represented by `String`;
  `str.encode` is therefore the identity on this representation.
* `sorted` on strings is lexicographic comparison of code points, embedded
  by the executable comparator `charListLe` below.
-/

/-! ### Lexicographic string order, embedding Python `sorted` on `str` -/

def charListLe : List Char → List Char → Bool
  | [], _ => true
  | _ :: _, [] => false
  | c :: cs, d :: ds =>
    if c.toNat < d.toNat then true
    else if d.toNat < c.toNat then false
    else charListLe cs ds

def strLe (a b : String) : Prop := charListLe a.data b.data = true

instance instDecRelStrLe : DecidableRel strLe :=
  fun _ _ => inferInstanceAs (Decidable (_ = true))

instance : IsTotal String strLe :=
  ⟨fun a b => by
    show charListLe a.data b.data = true ∨ charListLe b.data a.data = true
    generalize a.data = as
    generalize b.data = bs
    induction as generalizing bs with
    | nil => left; rfl
    | cons c cs ih =>
      cases bs with
      | nil => right; rfl
      | cons d ds =>
        simp only [charListLe]
        rcases Nat.lt_trichotomy c.toNat d.toNat with h | h | h
        · left; simp [h]
        · have h' : ¬ c.toNat < d.toNat := by omega
          have h'' : ¬ d.toNat < c.toNat := by omega
          rcases ih ds with hcd | hdc
          · left; simp [h', h'', hcd]
          · right; simp [h', h'', hdc]
        · right; simp [h]⟩

instance : IsTrans String strLe :=
  ⟨fun a b c h1 h2 => by
    show charListLe a.data c.data = true
    revert h1 h2
    show charListLe a.data b.data = true → charListLe b.data c.data = true →
      charListLe a.data c.data = true
    generalize a.data = as
    generalize b.data = bs
    generalize c.data = cs
    induction as generalizing bs cs with
    | nil => intro _ _; rfl
    | cons x xs ih =>
      intro h1 h2
      cases bs with
      | nil => simp [charListLe] at h1
      | cons v vs =>
        cases cs with
        | nil => simp [charListLe] at h2
        | cons u us =>
          simp only [charListLe] at h1 h2 ⊢
          by_cases hab : x.toNat < v.toNat
          · by_cases hbc : v.toNat < u.toNat
            · have hac : x.toNat < u.toNat := by omega
              simp [hac]
            · rw [if_neg hbc] at h2
              by_cases hcb : u.toNat < v.toNat
              · rw [if_pos hcb] at h2; exact absurd h2 (by simp)
              · have hac : x.toNat < u.toNat := by omega
                simp [hac]
          · rw [if_neg hab] at h1
            by_cases hba : v.toNat < x.toNat
            · rw [if_pos hba] at h1; exact absurd h1 (by simp)
            · rw [if_neg hba] at h1
              by_cases hbc : v.toNat < u.toNat
              · have hac : x.toNat < u.toNat := by omega
                simp [hac]
              · rw [if_neg hbc] at h2
                by_cases hcb : u.toNat < v.toNat
                · rw [if_pos hcb] at h2; exact absurd h2 (by simp)
                · rw [if_neg hcb] at h2
                  have hac : ¬ x.toNat < u.toNat := by omega
                  have hca : ¬ u.toNat < x.toNat := by omega
                  rw [if_neg hac, if_neg hca]
                  exact ih vs us h1 h2⟩

/-- Embedding of Python `sorted` over a list of strings. -/
def sortedStrings (l : List String) : List String := List.insertionSort strLe l

/-! ### `get_dummies` (io.py lines 12-18) -/

/-- Embedding of `get_dummies`: `labels = sorted(list(set(x)))`, one indicator
row per input element (the transpose of the per-label stack built by the
source), columns following `labels`. -/
def get_dummies (x : List String) : List (List Bool) × List String :=
  let labels := sortedStrings x.dedup
  (x.map (fun v => labels.map (fun l => v == l)), labels)

/-- Column sums of a rectangular Boolean matrix, embedding `X.sum(axis=0)`. -/
def colSums : List (List Bool) → List Nat
  | [] => []
  | [row] => row.map (fun b => if b then 1 else 0)
  | row :: rest => List.zipWith (· + ·) (row.map (fun b => if b then 1 else 0)) (colSums rest)

/-! ### Raw data model for `load_data` (io.py lines 21-70) -/

/-- Leaf record of the raw input structure:
`data_dict[run][idx][pos][kmer] = {'norm_means': ..., 'read_ids': ...}`. -/
structure SiteRecord where
  norm_means : List Int
  read_ids : List String
deriving DecidableEq

/-- Nested mapping `kmer -> SiteRecord`. -/
abbrev KmerDict := List (String × SiteRecord)

/-- Nested mapping `pos -> kmer -> SiteRecord`. -/
abbrev PosDict := List (String × KmerDict)

/-- Nested mapping `idx -> pos -> kmer -> SiteRecord` (one run's data). -/
abbrev IdxDict := List (String × PosDict)

/-- The full raw input `run -> idx -> pos -> kmer -> SiteRecord`. -/
abbrev DataDict := List (String × IdxDict)

/-- Lookup `data_dict[run][idx][pos][kmer]`; `none` models `KeyError`. -/
def lookupSite (dd : DataDict) (run idx pos kmer : String) : Option SiteRecord :=
  (((dd.lookup run).bind (fun m => m.lookup idx)).bind
    (fun pd => pd.lookup pos)).bind (fun kd => kd.lookup kmer)

/-- The `(pos, kmer)` pairs present for `idx` under one run
(io.py lines 30-34); `none` models a `KeyError` on `data_dict[run][idx]`. -/
def runPairs (dd : DataDict) (idx run : String) : Option (List (String × String)) :=
  ((dd.lookup run).bind (fun m => m.lookup idx)).map
    (fun pd => pd.flatMap (fun pk => pk.2.map (fun kk => (pk.1, kk.1))))

/-- Per-run pair lists for all runs, in run order (io.py lines 28-34). -/
def collectPairs (dd : DataDict) (idx : String) : List String → Option (List (List (String × String)))
  | [] => some []
  | r :: rest => do
    let ps ← runPairs dd idx r
    let prest ← collectPairs dd idx rest
    some (ps :: prest)

/-- Concatenation of values, read ids and labels over the parallel
`zip(condition_names, run_names)` list (io.py lines 40-47).  Fails when a
site lookup raises. -/
def gatherPair (dd : DataDict) (idx pos kmer : String) :
    List (String × String) → Option (List Int × List String × List String × List String)
  | [] => some ([], [], [], [])
  | (c, r) :: rest => do
    let site ← lookupSite dd r idx pos kmer
    let (y, rids, clabs, rlabs) ← gatherPair dd idx pos kmer rest
    some (site.norm_means ++ y, site.read_ids ++ rids,
      List.replicate site.norm_means.length c ++ clabs,
      List.replicate site.norm_means.length r ++ rlabs)

/-- One analysis-ready sample group (io.py line 68). -/
structure SampleGroup where
  y : List Int
  x : List (List Bool)
  r : List (List Bool)
  condition_names : List String
  run_names : List String
  read_ids : List String
  y_condition_names : List String
  y_run_names : List String
deriving DecidableEq

/-- Processing of one surviving `(pos, kmer)` pair (io.py lines 39-68):
`some []` models a `continue` (silent filtering), `some [entry]` an emitted
group, `none` a raised error. -/
def processPair (dd : DataDict) (idx : String) (conds runs : List String)
    (mn mx : Nat) (pooling : Bool) (pos kmer : String) :
    Option (List ((String × String × String) × SampleGroup)) := do
  let (y, rids, clabs, rlabs) ← gatherPair dd idx pos kmer (conds.zip runs)
  if y.length = 0 ∨ clabs.dedup.length ≠ conds.dedup.length ∨
      (¬ pooling ∧ rlabs.dedup.length ≠ runs.dedup.length) then
    some []
  else
    let xd := get_dummies clabs
    let rd := get_dummies rlabs
    if pooling then
      if (colSums xd.1).any (· < mn) ∨ (colSums xd.1).any (· > mx) then
        some []
      else
        some [((idx, pos, kmer), ⟨y, xd.1, rd.1, xd.2, rd.2, rids, clabs, rlabs⟩)]
    else
      if (colSums rd.1).any (· < mn) ∨ (colSums rd.1).any (· > mx) then
        some []
      else
        some [((idx, pos, kmer), ⟨y, xd.1, rd.1, xd.2, rd.2, rids, clabs, rlabs⟩)]

/-- Iteration of `processPair` over the surviving pairs (io.py lines 39-68). -/
def collectGroups (dd : DataDict) (idx : String) (conds runs : List String)
    (mn mx : Nat) (pooling : Bool) :
    List (String × String) → Option (List ((String × String × String) × SampleGroup))
  | [] => some []
  | p :: rest => do
    let gs ← processPair dd idx conds runs mn mx pooling p.1 p.2
    let grest ← collectGroups dd idx conds runs mn mx pooling rest
    some (gs ++ grest)

/-- Embedding of `load_data` (io.py lines 21-70).  The surviving pairs are
the intersection `set(position_kmer_pairs[0]).intersection(*position_kmer_pairs)`;
`none` models a raised exception (in particular the `IndexError` on
`position_kmer_pairs[0]` when `run_names` is empty). -/
def load_data (idx : String) (dd : DataDict) (conds runs : List String)
    (mn mx : Nat) (pooling : Bool) :
    Option (List ((String × String × String) × SampleGroup)) := do
  let pairsLists ← collectPairs dd idx runs
  let first ← pairsLists.head?
  let surviving := first.dedup.filter (fun p => pairsLists.all (fun l => l.contains p))
  collectGroups dd idx conds runs mn mx pooling surviving

/-- Well-formedness of the raw input: every site's `read_ids` array is
parallel to its `norm_means` array (one read identifier per read). -/
def SitesWF (dd : DataDict) : Prop :=
  ∀ p1 ∈ dd, ∀ p2 ∈ p1.2, ∀ p3 ∈ p2.2, ∀ p4 ∈ p3.2,
    (p4.2 : SiteRecord).read_ids.length = p4.2.norm_means.length

/-! ### Result table (io.py lines 154-282) -/

/-- One cell of a result row: the first three columns are text, the rest are
numeric statistics. -/
inductive TCell where
  | str (s : String)
  | num (q : Rat)
deriving DecidableEq

/-- Embedding of `itertools.combinations(l, 2)`, in the same order. -/
def combinations2 {α : Type} : List α → List (α × α)
  | [] => []
  | a :: rest => rest.map (fun b => (a, b)) ++ combinations2 rest

/-- Embedding of `get_ordered_condition_run_names` (io.py lines 180-183). -/
def get_ordered_condition_run_names (c2r : List (String × List String)) :
    List String × List String :=
  (sortedStrings (c2r.map Prod.fst).dedup,
   sortedStrings (c2r.map Prod.snd).flatten.dedup)

/-- The pairwise statistics column names (io.py lines 157-160). -/
def pairwiseHeaders (cn : List String) : List String :=
  (combinations2 cn).flatMap (fun pr =>
    ["p_ws_" ++ (pr.1 ++ "_vs_" ++ pr.2),
     "ws_mean_diff_" ++ (pr.1 ++ "_vs_" ++ pr.2),
     "abs_z_score_" ++ (pr.1 ++ "_vs_" ++ pr.2)])

/-- The one-vs-all statistics column names (io.py lines 161-163). -/
def oneVsAllHeaders (cn : List String) : List String :=
  cn.flatMap (fun c =>
    ["p_ws_" ++ c ++ "_vs_all", "ws_mean_diff_" ++ c ++ "_vs_all",
     "abs_z_score_" ++ c ++ "_vs_all"])

/-- Embedding of `get_result_table_header` (io.py lines 154-179). -/
def get_result_table_header (c2r : List (String × List String)) : List String :=
  ["idx", "position", "kmer", "mu_min", "mu_max", "sigma2_min", "sigma2_max"]
    ++ ["p_overlap"]
    ++ ["x_x1", "y_x1", "x_x2", "y_x2"]
    ++ (get_ordered_condition_run_names c2r).2.map (fun r => "w_min_" ++ r)
    ++ (get_ordered_condition_run_names c2r).2.map (fun r => "coverage_" ++ r)
    ++ pairwiseHeaders (get_ordered_condition_run_names c2r).1
    ++ (if 2 < (get_ordered_condition_run_names c2r).1.length then
        oneVsAllHeaders (get_ordered_condition_run_names c2r).1 else [])

/-- Modelled from the spec: the GMM accessors used by `generate_result_table`
(`gmm.py` and `utils/stats.py` are not under `src/`).  Per spec section 4.3
the mixture order is `K = 2`, fixed, so component-indexed quantities are
pairs; `w_expected` rows and `y_N` rows are aligned to `x_group_names`. -/
structure FitModel where
  mu_tau_expected : Rat × Rat
  mu_tau_expected_gamma : Rat × Rat
  mu_tau_variance_normal : Rat × Rat
  w_expected : List (Rat × Rat)
  y_N : List (Rat × Rat)
  x_group_names : List String
deriving DecidableEq

/-- Boolean-mask selection `vals[p(gnames)]`, embedding `numpy.isin`-based
fancy indexing over rows aligned with `gnames`. -/
def maskSel {α : Type} (gnames : List String) (vals : List α) (p : String → Bool) : List α :=
  ((gnames.zip vals).filter (fun q => p q.1)).map Prod.snd

/-- Arithmetic mean, embedding `numpy.mean` on a nonempty pool. -/
def listMean (l : List Rat) : Rat := l.sum / (l.length : Rat)

/-- Row-alignment invariant a fitted model carries (spec section 3: the `W`
and `Y` node rows are aligned to `group_names`, which identifies the runs). -/
def FitWF (fm : FitModel) (rn : List String) : Prop :=
  fm.w_expected.length = fm.x_group_names.length ∧
  fm.y_N.length = fm.x_group_names.length ∧
  fm.x_group_names.Perm rn

/-- The raw first mixture-weight column `w[:, 0]` (io.py line 221), before
orientation normalization. -/
def rawW0 (fm : FitModel) : List Rat := fm.w_expected.map Prod.fst

/-- Per-group coverage `numpy.sum(N, axis=-1)` (io.py line 222). -/
def coverageOf (fm : FitModel) : List Rat := fm.y_N.map (fun q => q.1 + q.2)

/-- Component variances `sigma2 = 1 / expected(gamma)` (io.py line 213). -/
def sigma2Of (fm : FitModel) : Rat × Rat :=
  (1 / fm.mu_tau_expected_gamma.1, 1 / fm.mu_tau_expected_gamma.2)

/-- One `[p_ws, ws_mean_diff, abs_z_score]` triple (io.py lines 237-241). -/
def statTriple (zt : List Rat → List Rat → List Rat → List Rat → Rat × Rat)
    (w1 w2 n1 n2 : List Rat) : List Rat :=
  [(zt w1 w2 n1 n2).2, |listMean w1 - listMean w2|, |(zt w1 w2 n1 n2).1|]

/-- Pairwise statistics over condition pairs (io.py lines 229-241), pooling
the raw `w[:, 0]` of the runs of each condition, weighted by coverage. -/
def pairwiseStats (zt : List Rat → List Rat → List Rat → List Rat → Rat × Rat)
    (c2r : List (String × List String)) (fm : FitModel) : List Rat :=
  (combinations2 (get_ordered_condition_run_names c2r).1).flatMap (fun pr =>
    statTriple zt
      (maskSel fm.x_group_names (rawW0 fm)
        (fun gname => ((c2r.lookup pr.1).getD []).contains gname))
      (maskSel fm.x_group_names (rawW0 fm)
        (fun gname => ((c2r.lookup pr.2).getD []).contains gname))
      (maskSel fm.x_group_names (coverageOf fm)
        (fun gname => ((c2r.lookup pr.1).getD []).contains gname))
      (maskSel fm.x_group_names (coverageOf fm)
        (fun gname => ((c2r.lookup pr.2).getD []).contains gname)))

/-- One-vs-all statistics (io.py lines 243-257): each condition's runs
against the complement. -/
def oneVsAllStats (zt : List Rat → List Rat → List Rat → List Rat → Rat × Rat)
    (c2r : List (String × List String)) (fm : FitModel) : List Rat :=
  (get_ordered_condition_run_names c2r).1.flatMap (fun c =>
    statTriple zt
      (maskSel fm.x_group_names (rawW0 fm)
        (fun gname => ((c2r.lookup c).getD []).contains gname))
      (maskSel fm.x_group_names (rawW0 fm)
        (fun gname => ! ((c2r.lookup c).getD []).contains gname))
      (maskSel fm.x_group_names (coverageOf fm)
        (fun gname => ((c2r.lookup c).getD []).contains gname))
      (maskSel fm.x_group_names (coverageOf fm)
        (fun gname => ! ((c2r.lookup c).getD []).contains gname)))

/-- Orientation-normalized component means (io.py lines 259-263): if
`mu[1] < mu[0]`, the pair is reversed. -/
def muNorm (fm : FitModel) : Rat × Rat :=
  if fm.mu_tau_expected.2 < fm.mu_tau_expected.1 then
    (fm.mu_tau_expected.2, fm.mu_tau_expected.1)
  else fm.mu_tau_expected

/-- Orientation-normalized component variances (io.py lines 259-263). -/
def sigma2Norm (fm : FitModel) : Rat × Rat :=
  if fm.mu_tau_expected.2 < fm.mu_tau_expected.1 then
    ((sigma2Of fm).2, (sigma2Of fm).1)
  else sigma2Of fm

/-- Orientation-normalized lower-component weight (io.py lines 260-264):
`w_min = 1 - w[:, 0]` when the components are swapped, else `w[:, 0]`. -/
def wMin (fm : FitModel) : List Rat :=
  if fm.mu_tau_expected.2 < fm.mu_tau_expected.1 then
    (rawW0 fm).map (fun v => 1 - v)
  else rawW0 fm

/-- Per-run reordering of a group-aligned vector into sorted `run_names`
order (io.py lines 266-269). -/
def perRunVec (rn gn : List String) (vals : List Rat) : List Rat :=
  rn.flatMap (fun r => maskSel gn vals (fun gname => gname == r))

/-- Embedding of the per-model row computation of `generate_result_table`
(io.py lines 210-280).  The external statistical primitives
`stats.calc_prob_overlapping` and `stats.z_test` (out of scope, not under
`src/`) are passed in as `ov` and `zt`. -/
def resultRow (ov : Rat × Rat → Rat × Rat → Rat × List Rat)
    (zt : List Rat → List Rat → List Rat → List Rat → Rat × Rat)
    (c2r : List (String × List String))
    (key : String × String × String) (fm : FitModel) : List TCell :=
  [TCell.str key.1, TCell.str key.2.1, TCell.str key.2.2,
   TCell.num (muNorm fm).1, TCell.num (muNorm fm).2,
   TCell.num (sigma2Norm fm).1, TCell.num (sigma2Norm fm).2,
   TCell.num (ov fm.mu_tau_expected (sigma2Of fm)).1]
    ++ (ov fm.mu_tau_expected (sigma2Of fm)).2.map TCell.num
    ++ (perRunVec (get_ordered_condition_run_names c2r).2 fm.x_group_names (wMin fm)).map
        TCell.num
    ++ (perRunVec (get_ordered_condition_run_names c2r).2 fm.x_group_names
        (coverageOf fm)).map TCell.num
    ++ (pairwiseStats zt c2r fm).map TCell.num
    ++ (if 2 < (get_ordered_condition_run_names c2r).1.length then
        (oneVsAllStats zt c2r fm).map TCell.num else [])

/-- Embedding of `generate_result_table` (io.py lines 185-282). -/
def generate_result_table (ov : Rat × Rat → Rat × Rat → Rat × List Rat)
    (zt : List Rat → List Rat → List Rat → List Rat → Rat × Rat)
    (models : List ((String × String × String) × FitModel))
    (c2r : List (String × List String)) : List (List TCell) :=
  models.map (fun km => resultRow ov zt c2r km.1 km.2)

/-! ### Model store (io.py lines 79-152) -/

/-- A stored array value: numeric vector, numeric matrix, or text vector
(the `group_names` parameter). -/
inductive HValue where
  | ints (a : List Int)
  | mat (m : List (List Int))
  | texts (s : List String)
deriving DecidableEq

/-- Embedding of `str.encode('UTF-8')`: byte strings and text strings are
both represented by `String`, so encoding is the identity on the
representation. -/
def encodeUTF8 (s : String) : String := s

/-- An ordered mapping of named stored arrays (an h5py group's datasets). -/
abbrev ParamGroup := List (String × HValue)

/-- The transformation `save_models` applies to one parameter before storing
it (io.py lines 109-110): `group_names` entries are UTF-8 encoded. -/
def encodeValue (param_name : String) (v : HValue) : HValue :=
  if param_name = "group_names" then
    match v with
    | HValue.texts s => HValue.texts (s.map encodeUTF8)
    | other => other
  else v

/-- Modelled from the spec: a GMM's `nodes` mapping has the fixed vocabulary
x, y, w, mu_tau, z (spec section 3); each node's `params` is an ordered
mapping of named arrays or `None`. -/
structure Nodes where
  x : Option ParamGroup
  y : Option ParamGroup
  w : Option ParamGroup
  mu_tau : Option ParamGroup
  z : Option ParamGroup
deriving DecidableEq

/-- The fixed node-name vocabulary. -/
inductive NodeName where
  | x | y | w | mu_tau | z
deriving DecidableEq

/-- Field access for a node by name. -/
def Nodes.get (n : Nodes) : NodeName → Option ParamGroup
  | NodeName.x => n.x
  | NodeName.y => n.y
  | NodeName.w => n.w
  | NodeName.mu_tau => n.mu_tau
  | NodeName.z => n.z

/-- Modelled from the spec: the persisted state of a GMM (`gmm.py` is not
under `src/`) — an `info` mapping of metadata and the `nodes` mapping. -/
structure GMM where
  info : ParamGroup
  nodes : Nodes
deriving DecidableEq

/-- Modelled from the spec: `GMM(inits=...)` reconstructs a model purely from
the given parameter tree (spec section 4.2, no refitting); an absent `info`
becomes an empty metadata mapping. -/
def GMM.ofInits (info : Option ParamGroup) (nodes : Nodes) : GMM :=
  ⟨info.getD [], nodes⟩

/-- One `<position>` group of the persisted container: the `kmer` attribute,
the `info` group, and the `nodes` group. -/
structure PosGroup where
  kmer : String
  info : ParamGroup
  nodes : List (String × ParamGroup)
deriving DecidableEq

/-- The persisted hierarchical container: `idx -> position -> PosGroup`. -/
abbrev ModelFile := List (String × List (String × PosGroup))

/-- Sequential dataset creation into a fresh h5py group; creating a name that
already exists raises, modelled by `none`. -/
def writeItems (f : String → HValue → HValue) :
    ParamGroup → List (String × HValue) → Option ParamGroup
  | acc, [] => some acc
  | acc, (pn, v) :: rest =>
    if (acc.lookup pn).isSome then none
    else writeItems f (acc ++ [(pn, f pn v)]) rest

/-- Storage of one node (io.py lines 104-111): the node group is created
unconditionally; a `None` params mapping stores nothing. -/
def saveNode : Option ParamGroup → Option ParamGroup
  | none => some []
  | some ps => writeItems encodeValue [] ps

/-- Storage of the `nodes` group, one subgroup per vocabulary name. -/
def saveNodes (n : Nodes) : Option (List (String × ParamGroup)) := do
  let px ← saveNode n.x
  let py ← saveNode n.y
  let pw ← saveNode n.w
  let pm ← saveNode n.mu_tau
  let pz ← saveNode n.z
  some [("x", px), ("y", py), ("w", pw), ("mu_tau", pm), ("z", pz)]

/-- Storage of one model under its position group (io.py lines 94-111). -/
def savePos (kmer : String) (m : GMM) : Option PosGroup := do
  let inf ← writeItems (fun _ v => v) [] m.info
  let nz ← saveNodes m.nodes
  some ⟨encodeUTF8 kmer, inf, nz⟩

/-- `model_file[idx].create_group(position)`: raises if the position already
exists under `idx`. -/
def insertPos (grp : List (String × PosGroup)) (pos : String) (pg : PosGroup) :
    Option (List (String × PosGroup)) :=
  if (grp.lookup pos).isSome then none else some (grp ++ [(pos, pg)])

/-- Insertion of one position group into the container, creating the `idx`
group when absent (io.py lines 95-97). -/
def insertModel : ModelFile → String → String → PosGroup → Option ModelFile
  | [], idx, pos, pg => some [(idx, [(pos, pg)])]
  | (i, g) :: rest, idx, pos, pg =>
    if i = idx then (insertPos g pos pg).map (fun g2 => (i, g2) :: rest)
    else (insertModel rest idx pos pg).map (fun f2 => (i, g) :: f2)

/-- Iteration of `save_models` over `models.items()` (io.py lines 91-111). -/
def saveModelsAux : ModelFile → List ((String × String × String) × GMM) → Option ModelFile
  | file, [] => some file
  | file, (key, m) :: rest => do
    let pg ← savePos key.2.2 m
    let file2 ← insertModel file key.1 key.2.1 pg
    saveModelsAux file2 rest

/-- Embedding of `save_models` (io.py lines 79-115); `none` models a raised
h5py error (duplicate position or duplicate dataset name). -/
def save_models (models : List ((String × String × String) × GMM)) : Option ModelFile :=
  saveModelsAux [] models

/-- Python dict assignment `d[k] = v`: overwrite when present, append when
new. -/
def dictSet (d : ParamGroup) (k : String) (v : HValue) : ParamGroup :=
  if (d.lookup k).isSome then d.map (fun p => if p.1 = k then (k, v) else p)
  else d ++ [(k, v)]

/-- Reading one stored node's params into an inits dict (io.py lines 142-144). -/
def loadNode (init : ParamGroup) (ps : ParamGroup) : ParamGroup :=
  ps.foldl (fun acc pv => dictSet acc pv.1 pv.2) init

/-- The pre-seeded inits vocabulary of `load_models` (io.py line 137):
every node name maps to an empty parameter dict. -/
def initNodes : Nodes := ⟨some [], some [], some [], some [], some []⟩

/-- Iteration over the stored `nodes` group (io.py lines 142-144).  A stored
node name outside the vocabulary raises a `KeyError` on the inits dict as
soon as it holds a parameter, modelled by `none`. -/
def loadNodesAux : Nodes → List (String × ParamGroup) → Option Nodes
  | acc, [] => some acc
  | acc, (nm, ps) :: rest =>
    if nm = "x" then loadNodesAux { acc with x := some (loadNode (acc.x.getD []) ps) } rest
    else if nm = "y" then loadNodesAux { acc with y := some (loadNode (acc.y.getD []) ps) } rest
    else if nm = "w" then loadNodesAux { acc with w := some (loadNode (acc.w.getD []) ps) } rest
    else if nm = "mu_tau" then
      loadNodesAux { acc with mu_tau := some (loadNode (acc.mu_tau.getD []) ps) } rest
    else if nm = "z" then loadNodesAux { acc with z := some (loadNode (acc.z.getD []) ps) } rest
    else if ps.isEmpty then loadNodesAux acc rest
    else none

/-- Reconstruction of a `nodes` mapping from storage. -/
def loadNodes (stored : List (String × ParamGroup)) : Option Nodes :=
  loadNodesAux initNodes stored

/-- Reconstruction of one model from its position group (io.py lines
137-148): `inits['info']` stays `None` (the info-reading loop is commented
out in the source). -/
def loadPosGroup (pg : PosGroup) : Option GMM :=
  (loadNodes pg.nodes).map (GMM.ofInits none)

/-- Iteration over the positions of one `idx` group (io.py lines 136-148). -/
def loadIdxGroup (i : String) :
    List (String × PosGroup) → Option (List ((String × String × String) × GMM))
  | [] => some []
  | (p, pg) :: rest => do
    let m ← loadPosGroup pg
    let ms ← loadIdxGroup i rest
    some (((i, p, pg.kmer), m) :: ms)

/-- Embedding of `load_models` (io.py lines 118-152). -/
def load_models : ModelFile → Option (List ((String × String × String) × GMM))
  | [] => some []
  | (i, g) :: rest => do
    let ms ← loadIdxGroup i g
    let rest2 ← load_models rest
    some (ms ++ rest2)

/-- The model `load_models` reconstructs for a stored model `m`: `info` is
dropped and every node's params mapping is materialized (a `None` params
becomes the empty mapping read back from the node's empty group). -/
def loadedOf (m : GMM) : GMM :=
  ⟨[], ⟨some (m.nodes.x.getD []), some (m.nodes.y.getD []), some (m.nodes.w.getD []),
    some (m.nodes.mu_tau.getD []), some (m.nodes.z.getD [])⟩⟩

/-- A container with every `info` group emptied: what a second save can at
most reproduce, since `load_models` does not read `info` back. -/
def eraseInfo (F : ModelFile) : ModelFile :=
  F.map (fun ig => (ig.1, ig.2.map (fun pp => (pp.1, ⟨pp.2.kmer, [], pp.2.nodes⟩))))

/-- Location of a stored position group inside a container. -/
def pgLocated (F : ModelFile) (i p : String) : Option PosGroup :=
  (F.lookup i).bind (fun g => g.lookup p)

/-- The shape `save_models` gives every stored position group: the five
vocabulary node groups in fixed order, each with distinct dataset names. -/
def CanonPG (pg : PosGroup) : Prop :=
  ∃ p1 p2 p3 p4 p5 : ParamGroup,
    pg.nodes = [("x", p1), ("y", p2), ("w", p3), ("mu_tau", p4), ("z", p5)] ∧
    (p1.map Prod.fst).Nodup ∧ (p2.map Prod.fst).Nodup ∧ (p3.map Prod.fst).Nodup ∧
    (p4.map Prod.fst).Nodup ∧ (p5.map Prod.fst).Nodup

/-- The structural invariant of any container `save_models` produces. -/
def CanonFile (F : ModelFile) : Prop :=
  (F.map Prod.fst).Nodup ∧
  ∀ ig ∈ F, ig.2 ≠ [] ∧ (ig.2.map Prod.fst).Nodup ∧ ∀ pp ∈ ig.2, CanonPG pp.2

/-- The model `load_models` reconstructs from one stored position group. -/
def loadedOfPG (pg : PosGroup) : GMM :=
  (loadPosGroup pg).getD ⟨[], initNodes⟩

/-- The flat key-model list `load_models` produces on a container. -/
def flatItems (F : ModelFile) : List ((String × String × String) × GMM) :=
  F.flatMap (fun ig => ig.2.map (fun pp => ((ig.1, pp.1, pp.2.kmer), loadedOfPG pp.2)))

/-! ### Concrete test fixtures used by witness theorems -/

/-- A small well-formed raw input: two runs, one gene, one site. -/
def sampleDD : DataDict :=
  [("r1", [("g", [("p", [("k", ⟨[1, 2], ["a", "b"]⟩)])])]),
   ("r2", [("g", [("p", [("k", ⟨[3], ["c"]⟩)])])])]

/-- The sample group `load_data` emits on `sampleDD`. -/
def sampleGroup : SampleGroup :=
  ⟨[1, 2, 3],
   [[true, false], [true, false], [false, true]],
   [[true, false], [true, false], [false, true]],
   ["c1", "c2"], ["r1", "r2"], ["a", "b", "c"],
   ["c1", "c1", "c2"], ["r1", "r1", "r2"]⟩

/-- The full `load_data` output on `sampleDD`. -/
def sampleOut : List ((String × String × String) × SampleGroup) :=
  [(("g", "p", "k"), sampleGroup)]

/-- A malformed raw input whose single site has two signal values but only
one read identifier. -/
def raggedDD : DataDict :=
  [("r1", [("g", [("p", [("k", ⟨[1, 2], ["a"]⟩)])])])]

/-- The group `load_data` emits on `raggedDD`: its `read_ids` column is
shorter than its `y` column. -/
def raggedGroup : SampleGroup :=
  ⟨[1, 2], [[true], [true]], [[true], [true]], ["c1"], ["r1"], ["a"],
   ["c1", "c1"], ["r1", "r1"]⟩

/-- A fixed overlap primitive respecting the spec's shape contract
`(p_overlap, [x1, y1, x2, y2])`. -/
def ovFix : Rat × Rat → Rat × Rat → Rat × List Rat := fun _ _ => (0, [0, 0, 0, 0])

/-- A fixed two-sample test primitive `(z_score, p_value)`. -/
def ztFix : List Rat → List Rat → List Rat → List Rat → Rat × Rat := fun _ _ _ _ => (0, 0)

/-- A three-condition `cond2run` mapping (exercises the one-vs-all branch). -/
def c2rFix : List (String × List String) :=
  [("c1", ["r1"]), ("c2", ["r2"]), ("c3", ["r3"])]

/-- A concrete fitted model aligned with `c2rFix`'s runs. -/
def fmFix : FitModel :=
  ⟨(1, 2), (1, 1), (0, 0),
   [(1/2, 1/2), (1/4, 3/4), (1/3, 2/3)],
   [(10, 20), (5, 5), (7, 3)],
   ["r1", "r2", "r3"]⟩

/-- A singleton models mapping for the table fixtures. -/
def modelsFix : List ((String × String × String) × FitModel) := [(("g", "p", "k"), fmFix)]

/-- A model with non-empty `info` metadata and one parameterized node. -/
def infoGMM : GMM :=
  ⟨[("n", HValue.ints [1])],
   ⟨some [("mu", HValue.ints [0, 1]), ("group_names", HValue.texts ["r1", "r2"])],
    none, none, none, none⟩⟩

/-- A singleton models mapping around `infoGMM`. -/
def infoModels : List ((String × String × String) × GMM) :=
  [(("g", "1", "AAAAA"), infoGMM)]

/-- The container `save_models` produces on `infoModels`. -/
def infoFile : ModelFile :=
  [("g", [("1",
    ⟨"AAAAA", [("n", HValue.ints [1])],
     [("x", [("mu", HValue.ints [0, 1]), ("group_names", HValue.texts ["r1", "r2"])]),
      ("y", []), ("w", []), ("mu_tau", []), ("z", [])]⟩)])]

/-! ### Helper lemmas about the embedding -/

theorem lookup_mem {β : Type} {l : List (String × β)} {k : String} {v : β}
    (h : l.lookup k = some v) : (k, v) ∈ l := by
  induction l with
  | nil => simp [List.lookup] at h
  | cons p rest ih =>
    obtain ⟨a, b⟩ := p
    rw [List.lookup_cons] at h
    by_cases hk : k == a
    · rw [hk] at h
      simp only [Option.some.injEq] at h
      subst h
      have : k = a := by simpa using hk
      subst this
      exact List.mem_cons_self _ _
    · rw [Bool.eq_false_iff.mpr hk] at h
      exact List.mem_cons_of_mem _ (ih h)

theorem lookupSite_wf {dd : DataDict} {run idx pos kmer : String} {site : SiteRecord}
    (hwf : SitesWF dd) (h : lookupSite dd run idx pos kmer = some site) :
    site.read_ids.length = site.norm_means.length := by
  unfold lookupSite at h
  cases h1 : dd.lookup run with
  | none => rw [h1] at h; simp at h
  | some m =>
    rw [h1] at h
    simp only [Option.pure_def, Option.bind_eq_bind, Option.some_bind] at h
    cases h2 : m.lookup idx with
    | none => rw [h2] at h; simp at h
    | some pd =>
      rw [h2] at h
      simp only [Option.pure_def, Option.bind_eq_bind, Option.some_bind] at h
      cases h3 : pd.lookup pos with
      | none => rw [h3] at h; simp at h
      | some kd =>
        rw [h3] at h
        simp only [Option.pure_def, Option.bind_eq_bind, Option.some_bind] at h
        exact hwf (run, m) (lookup_mem h1) (idx, pd) (lookup_mem h2)
          (pos, kd) (lookup_mem h3) (kmer, site) (lookup_mem h)

theorem collectPairs_mem {dd : DataDict} {idx : String} :
    ∀ {runs : List String} {ls : List (List (String × String))},
    collectPairs dd idx runs = some ls →
    ∀ r ∈ runs, ∃ ps, runPairs dd idx r = some ps ∧ ps ∈ ls := by
  intro runs
  induction runs with
  | nil => intro ls _ r hr; exact absurd hr (List.not_mem_nil r)
  | cons r0 rest ih =>
    intro ls h r hr
    unfold collectPairs at h
    cases h1 : runPairs dd idx r0 with
    | none => rw [h1] at h; simp at h
    | some ps0 =>
      rw [h1] at h
      simp only [Option.pure_def, Option.bind_eq_bind, Option.some_bind] at h
      cases h2 : collectPairs dd idx rest with
      | none => rw [h2] at h; simp at h
      | some prest =>
        rw [h2] at h
        simp only [Option.some_bind, Option.some.injEq] at h
        subst h
        rcases List.mem_cons.mp hr with hr0 | hrr
        · subst hr0; exact ⟨ps0, h1, List.mem_cons_self _ _⟩
        · obtain ⟨ps, hps, hmem⟩ := ih h2 r hrr
          exact ⟨ps, hps, List.mem_cons_of_mem _ hmem⟩

theorem collectGroups_mem {dd : DataDict} {idx : String} {conds runs : List String}
    {mn mx : Nat} {pooling : Bool} :
    ∀ {pairs : List (String × String)}
      {out : List ((String × String × String) × SampleGroup)},
    collectGroups dd idx conds runs mn mx pooling pairs = some out →
    ∀ kg ∈ out, ∃ p ∈ pairs, ∃ gs,
      processPair dd idx conds runs mn mx pooling p.1 p.2 = some gs ∧ kg ∈ gs := by
  intro pairs
  induction pairs with
  | nil =>
    intro out h kg hkg
    unfold collectGroups at h
    simp only [Option.some.injEq] at h
    subst h
    exact absurd hkg (List.not_mem_nil kg)
  | cons p rest ih =>
    intro out h kg hkg
    unfold collectGroups at h
    cases h1 : processPair dd idx conds runs mn mx pooling p.1 p.2 with
    | none => rw [h1] at h; simp at h
    | some gs0 =>
      rw [h1] at h
      simp only [Option.pure_def, Option.bind_eq_bind, Option.some_bind] at h
      cases h2 : collectGroups dd idx conds runs mn mx pooling rest with
      | none => rw [h2] at h; simp at h
      | some grest =>
        rw [h2] at h
        simp only [Option.some_bind, Option.some.injEq] at h
        subst h
        rcases List.mem_append.mp hkg with hg | hg
        · exact ⟨p, List.mem_cons_self _ _, gs0, h1, hg⟩
        · obtain ⟨p', hp', gs, hgs, hmem⟩ := ih h2 kg hg
          exact ⟨p', List.mem_cons_of_mem _ hp', gs, hgs, hmem⟩

theorem load_data_inv {idx : String} {dd : DataDict} {conds runs : List String}
    {mn mx : Nat} {pooling : Bool}
    {out : List ((String × String × String) × SampleGroup)}
    (h : load_data idx dd conds runs mn mx pooling = some out) :
    ∃ pls first, collectPairs dd idx runs = some pls ∧ pls.head? = some first ∧
      collectGroups dd idx conds runs mn mx pooling
        (first.dedup.filter (fun p => pls.all (fun l => l.contains p))) = some out := by
  unfold load_data at h
  cases h1 : collectPairs dd idx runs with
  | none => rw [h1] at h; simp at h
  | some pls =>
    rw [h1] at h
    simp only [Option.pure_def, Option.bind_eq_bind, Option.some_bind] at h
    cases h2 : pls.head? with
    | none => rw [h2] at h; simp at h
    | some first =>
      rw [h2] at h
      simp only [Option.pure_def, Option.bind_eq_bind, Option.some_bind] at h
      exact ⟨pls, first, rfl, h2, h⟩

theorem gatherPair_sub {dd : DataDict} {idx pos kmer : String} :
    ∀ {ps : List (String × String)} {t},
    gatherPair dd idx pos kmer ps = some t →
    (∀ c ∈ t.2.2.1, ∃ pr, pr ∈ ps ∧ c = pr.1) ∧
    (∀ r ∈ t.2.2.2, ∃ pr, pr ∈ ps ∧ r = pr.2) := by
  intro ps
  induction ps with
  | nil =>
    intro t h
    unfold gatherPair at h
    simp only [Option.some.injEq] at h
    subst h
    exact ⟨fun c hc => absurd hc (List.not_mem_nil c),
           fun r hr => absurd hr (List.not_mem_nil r)⟩
  | cons pr0 rest ih =>
    intro t h
    obtain ⟨c0, r0⟩ := pr0
    unfold gatherPair at h
    cases h1 : lookupSite dd r0 idx pos kmer with
    | none => rw [h1] at h; simp at h
    | some site =>
      rw [h1] at h
      simp only [Option.pure_def, Option.bind_eq_bind, Option.some_bind] at h
      cases h2 : gatherPair dd idx pos kmer rest with
      | none => rw [h2] at h; simp at h
      | some t0 =>
        obtain ⟨y0, rids0, cl0, rl0⟩ := t0
        rw [h2] at h
        simp only [Option.pure_def, Option.bind_eq_bind, Option.some_bind,
          Option.some.injEq] at h
        subst h
        obtain ⟨ihc, ihr⟩ := ih h2
        constructor
        · intro c hc
          rcases List.mem_append.mp hc with hcl | hcl
          · exact ⟨(c0, r0), List.mem_cons_self _ _, (List.mem_replicate.mp hcl).2⟩
          · obtain ⟨pr, hpr, hce⟩ := ihc c hcl
            exact ⟨pr, List.mem_cons_of_mem _ hpr, hce⟩
        · intro r hr
          rcases List.mem_append.mp hr with hrl | hrl
          · exact ⟨(c0, r0), List.mem_cons_self _ _, (List.mem_replicate.mp hrl).2⟩
          · obtain ⟨pr, hpr, hre⟩ := ihr r hrl
            exact ⟨pr, List.mem_cons_of_mem _ hpr, hre⟩

theorem gatherPair_len {dd : DataDict} {idx pos kmer : String} :
    ∀ {ps : List (String × String)} {t},
    gatherPair dd idx pos kmer ps = some t →
    t.2.2.1.length = t.1.length ∧ t.2.2.2.length = t.1.length ∧
    (SitesWF dd → t.2.1.length = t.1.length) := by
  intro ps
  induction ps with
  | nil =>
    intro t h
    unfold gatherPair at h
    simp only [Option.some.injEq] at h
    subst h
    exact ⟨rfl, rfl, fun _ => rfl⟩
  | cons pr0 rest ih =>
    intro t h
    obtain ⟨c0, r0⟩ := pr0
    unfold gatherPair at h
    cases h1 : lookupSite dd r0 idx pos kmer with
    | none => rw [h1] at h; simp at h
    | some site =>
      rw [h1] at h
      simp only [Option.pure_def, Option.bind_eq_bind, Option.some_bind] at h
      cases h2 : gatherPair dd idx pos kmer rest with
      | none => rw [h2] at h; simp at h
      | some t0 =>
        obtain ⟨y0, rids0, cl0, rl0⟩ := t0
        rw [h2] at h
        simp only [Option.pure_def, Option.bind_eq_bind, Option.some_bind,
          Option.some.injEq] at h
        subst h
        obtain ⟨ihc, ihr, ihid⟩ := ih h2
        have ihc' : cl0.length = y0.length := ihc
        have ihr' : rl0.length = y0.length := ihr
        refine ⟨?_, ?_, ?_⟩
        · show (List.replicate site.norm_means.length c0 ++ cl0).length =
            (site.norm_means ++ y0).length
          simp only [List.length_append, List.length_replicate]
          omega
        · show (List.replicate site.norm_means.length r0 ++ rl0).length =
            (site.norm_means ++ y0).length
          simp only [List.length_append, List.length_replicate]
          omega
        · intro hwf
          have hsite := lookupSite_wf hwf h1
          have ihid' : rids0.length = y0.length := ihid hwf
          show (site.read_ids ++ rids0).length = (site.norm_means ++ y0).length
          simp only [List.length_append]
          omega

theorem processPair_inv {dd : DataDict} {idx : String} {conds runs : List String}
    {mn mx : Nat} {pooling : Bool} {pos kmer : String}
    {gs : List ((String × String × String) × SampleGroup)}
    {key : String × String × String} {g : SampleGroup}
    (h : processPair dd idx conds runs mn mx pooling pos kmer = some gs)
    (hm : (key, g) ∈ gs) :
    key = (idx, pos, kmer) ∧
    gatherPair dd idx pos kmer (conds.zip runs) =
      some (g.y, g.read_ids, g.y_condition_names, g.y_run_names) ∧
    g.x = (get_dummies g.y_condition_names).1 ∧
    g.condition_names = (get_dummies g.y_condition_names).2 ∧
    g.r = (get_dummies g.y_run_names).1 ∧
    g.run_names = (get_dummies g.y_run_names).2 ∧
    g.y.length ≠ 0 ∧
    g.y_condition_names.dedup.length = conds.dedup.length ∧
    (pooling = false → g.y_run_names.dedup.length = runs.dedup.length) ∧
    (pooling = true →
      (colSums g.x).any (· < mn) = false ∧ (colSums g.x).any (· > mx) = false) ∧
    (pooling = false →
      (colSums g.r).any (· < mn) = false ∧ (colSums g.r).any (· > mx) = false) := by
  unfold processPair at h
  cases hg : gatherPair dd idx pos kmer (conds.zip runs) with
  | none => rw [hg] at h; simp at h
  | some t =>
    obtain ⟨y, rids, clabs, rlabs⟩ := t
    rw [hg] at h
    simp only [Option.pure_def, Option.bind_eq_bind, Option.some_bind] at h
    by_cases hf : y.length = 0 ∨ clabs.dedup.length ≠ conds.dedup.length ∨
        (¬ pooling = true ∧ rlabs.dedup.length ≠ runs.dedup.length)
    · rw [if_pos hf] at h
      simp only [Option.some.injEq] at h
      subst h
      exact absurd hm (List.not_mem_nil _)
    · rw [if_neg hf] at h
      push_neg at hf
      obtain ⟨hy0, hcl, hrl⟩ := hf
      cases pooling with
      | true =>
        simp only [if_true, Bool.true_eq_false] at h ⊢
        by_cases hcov : (colSums (get_dummies clabs).1).any (· < mn) = true ∨
            (colSums (get_dummies clabs).1).any (· > mx) = true
        · rw [if_pos hcov] at h
          simp only [Option.some.injEq] at h
          subst h
          exact absurd hm (List.not_mem_nil _)
        · rw [if_neg hcov] at h
          push_neg at hcov
          simp only [Option.some.injEq] at h
          subst h
          rcases List.mem_singleton.mp hm with hkg
          have hkey : key = (idx, pos, kmer) := congrArg Prod.fst hkg
          have hgrp : g = ⟨y, (get_dummies clabs).1, (get_dummies rlabs).1,
              (get_dummies clabs).2, (get_dummies rlabs).2, rids, clabs, rlabs⟩ :=
            congrArg Prod.snd hkg
          subst hgrp
          refine ⟨hkey, rfl, rfl, rfl, rfl, rfl, hy0, hcl, ?_, ?_, ?_⟩
          · intro hfalse; exact absurd hfalse (by simp)
          · intro _
            exact ⟨Bool.not_eq_true _ ▸ Bool.eq_false_iff.mpr
                (fun hc => hcov.1 hc),
              Bool.eq_false_iff.mpr (fun hc => hcov.2 hc)⟩
          · intro hfalse; exact absurd hfalse (by simp)
      | false =>
        simp only [if_false, Bool.false_eq_true] at h ⊢
        by_cases hcov : (colSums (get_dummies rlabs).1).any (· < mn) = true ∨
            (colSums (get_dummies rlabs).1).any (· > mx) = true
        · rw [if_pos hcov] at h
          simp only [Option.some.injEq] at h
          subst h
          exact absurd hm (List.not_mem_nil _)
        · rw [if_neg hcov] at h
          push_neg at hcov
          simp only [Option.some.injEq] at h
          subst h
          rcases List.mem_singleton.mp hm with hkg
          have hkey : key = (idx, pos, kmer) := congrArg Prod.fst hkg
          have hgrp : g = ⟨y, (get_dummies clabs).1, (get_dummies rlabs).1,
              (get_dummies clabs).2, (get_dummies rlabs).2, rids, clabs, rlabs⟩ :=
            congrArg Prod.snd hkg
          subst hgrp
          refine ⟨hkey, rfl, rfl, rfl, rfl, rfl, hy0, hcl, fun _ => ?_, ?_, fun _ => ?_⟩
          · exact hrl (by simp)
          · intro hfalse; exact absurd hfalse (by simp)
          · exact ⟨Bool.eq_false_iff.mpr (fun hc => hcov.1 hc),
              Bool.eq_false_iff.mpr (fun hc => hcov.2 hc)⟩

theorem dedup_perm_of_sub_of_len {l1 l2 : List String}
    (hsub : ∀ a ∈ l1, a ∈ l2) (hlen : l1.dedup.length = l2.dedup.length) :
    l1.dedup.Perm l2.dedup := by
  have hsub' : l1.dedup ⊆ l2.dedup := fun a ha =>
    List.mem_dedup.mpr (hsub a (List.mem_dedup.mp ha))
  exact ((List.nodup_dedup l1).subperm hsub').perm_of_length_le (le_of_eq hlen.symm)

/-! ### Claims about `load_data` -/

/-- Claim C10: calling `load_data` with an empty `run_names` sequence fails
(the indexing `position_kmer_pairs[0]` raises `IndexError`, modelled by
`none`) rather than returning an empty mapping; a non-empty `run_names` is
an unstated precondition. -/
theorem load_data_empty_runs (idx : String) (dd : DataDict) (conds : List String)
    (mn mx : Nat) (pooling : Bool) :
    load_data idx dd conds [] mn mx pooling = none := rfl

/-- Claim C5: every `(position, kmer)` key of a group emitted by `load_data`
is present, for the queried `idx`, under every run in `run_names`: the
surviving pairs are drawn from the intersection of the per-run pair sets,
so a pair missing from any single run is emitted for no group. -/
theorem load_data_keys_present_in_every_run
    {idx : String} {dd : DataDict} {conds runs : List String} {mn mx : Nat}
    {pooling : Bool} {out : List ((String × String × String) × SampleGroup)}
    (h : load_data idx dd conds runs mn mx pooling = some out)
    {key : String × String × String} {g : SampleGroup} (hkg : (key, g) ∈ out)
    {r : String} (hr : r ∈ runs) :
    key.1 = idx ∧ (runPairs dd idx r).isSome = true ∧
    (key.2.1, key.2.2) ∈ (runPairs dd idx r).getD [] := by
  obtain ⟨pls, first, hcp, hhead, hcg⟩ := load_data_inv h
  obtain ⟨p, hp, gs, hgs, hmem⟩ := collectGroups_mem hcg _ hkg
  have hkey : key = (idx, p.1, p.2) := (processPair_inv hgs hmem).1
  have hp' := List.mem_filter.mp hp
  have hall := List.all_eq_true.mp hp'.2
  obtain ⟨ps, hps, hpsmem⟩ := collectPairs_mem hcp r hr
  have hpmem : p ∈ ps := by simpa using hall ps hpsmem
  refine ⟨by rw [hkey], by rw [hps]; rfl, ?_⟩
  rw [hps]
  show (key.2.1, key.2.2) ∈ ps
  have : (key.2.1, key.2.2) = p := by rw [hkey]
  rw [this]
  exact hpmem

/-- Witness for C5 on the concrete fixture. -/
theorem load_data_keys_present_in_every_run_witness :
    (("g", "p", "k") : String × String × String).1 = "g" ∧
    (runPairs sampleDD "g" "r1").isSome = true ∧
    ((("g", "p", "k") : String × String × String).2.1,
     (("g", "p", "k") : String × String × String).2.2) ∈
      (runPairs sampleDD "g" "r1").getD [] :=
  load_data_keys_present_in_every_run
    (show load_data "g" sampleDD ["c1", "c2"] ["r1", "r2"] 1 10 false = some sampleOut by
      decide)
    (show (("g", "p", "k"), sampleGroup) ∈ sampleOut by decide)
    (show ("r1" : String) ∈ ["r1", "r2"] by decide)

/-- Claim C6: every group emitted by `load_data` satisfies the coverage
filter exactly as configured: when pooling, every column sum of the
condition design matrix `x` lies in `[min_count, max_count]`; otherwise
every column sum of the run design matrix `r` does.  (A violating group is
silently omitted, so an emitted group always passes.) -/
theorem load_data_coverage_filter
    {idx : String} {dd : DataDict} {conds runs : List String} {mn mx : Nat}
    {pooling : Bool} {out : List ((String × String × String) × SampleGroup)}
    (h : load_data idx dd conds runs mn mx pooling = some out)
    {key : String × String × String} {g : SampleGroup} (hkg : (key, g) ∈ out) :
    (pooling = true →
      (colSums g.x).all (fun s => decide (mn ≤ s) && decide (s ≤ mx)) = true) ∧
    (pooling = false →
      (colSums g.r).all (fun s => decide (mn ≤ s) && decide (s ≤ mx)) = true) := by
  obtain ⟨pls, first, hcp, hhead, hcg⟩ := load_data_inv h
  obtain ⟨p, hp, gs, hgs, hmem⟩ := collectGroups_mem hcg _ hkg
  obtain ⟨_, _, _, _, _, _, _, _, _, hx, hr⟩ := processPair_inv hgs hmem
  constructor
  · intro hpool
    obtain ⟨ha, hb⟩ := hx hpool
    rw [List.all_eq_true]
    intro s hs
    have h1 : ¬ s < mn := by
      intro hlt
      have : (colSums g.x).any (· < mn) = true :=
        List.any_eq_true.mpr ⟨s, hs, by simpa using hlt⟩
      rw [ha] at this
      exact Bool.false_ne_true this
    have h2 : ¬ s > mx := by
      intro hgt
      have : (colSums g.x).any (· > mx) = true :=
        List.any_eq_true.mpr ⟨s, hs, by simpa using hgt⟩
      rw [hb] at this
      exact Bool.false_ne_true this
    simp only [Bool.and_eq_true, decide_eq_true_eq]
    exact ⟨Nat.le_of_not_lt h1, Nat.le_of_not_lt h2⟩
  · intro hpool
    obtain ⟨ha, hb⟩ := hr hpool
    rw [List.all_eq_true]
    intro s hs
    have h1 : ¬ s < mn := by
      intro hlt
      have : (colSums g.r).any (· < mn) = true :=
        List.any_eq_true.mpr ⟨s, hs, by simpa using hlt⟩
      rw [ha] at this
      exact Bool.false_ne_true this
    have h2 : ¬ s > mx := by
      intro hgt
      have : (colSums g.r).any (· > mx) = true :=
        List.any_eq_true.mpr ⟨s, hs, by simpa using hgt⟩
      rw [hb] at this
      exact Bool.false_ne_true this
    simp only [Bool.and_eq_true, decide_eq_true_eq]
    exact ⟨Nat.le_of_not_lt h1, Nat.le_of_not_lt h2⟩

/-- Witness for C6 on the concrete fixture. -/
theorem load_data_coverage_filter_witness :
    (false = true →
      (colSums sampleGroup.x).all (fun s => decide (1 ≤ s) && decide (s ≤ 10)) = true) ∧
    (false = false →
      (colSums sampleGroup.r).all (fun s => decide (1 ≤ s) && decide (s ≤ 10)) = true) :=
  load_data_coverage_filter
    (show load_data "g" sampleDD ["c1", "c2"] ["r1", "r2"] 1 10 false = some sampleOut by
      decide)
    (show (("g", "p", "k"), sampleGroup) ∈ sampleOut by decide)

/-- Claim C7: `load_data` discards a candidate group when it is empty, when
its distinct observed condition labels differ in number from the requested
conditions, or (without pooling) when its distinct observed run labels
differ in number from the requested runs; every emitted group is non-empty
and its observed condition-label set equals the requested condition set
exactly (as sets: permutation of the deduplicated lists). -/
theorem load_data_label_sets
    {idx : String} {dd : DataDict} {conds runs : List String} {mn mx : Nat}
    {pooling : Bool} {out : List ((String × String × String) × SampleGroup)}
    (h : load_data idx dd conds runs mn mx pooling = some out)
    {key : String × String × String} {g : SampleGroup} (hkg : (key, g) ∈ out) :
    g.y.length ≠ 0 ∧
    g.y_condition_names.dedup.Perm conds.dedup ∧
    (pooling = false → g.y_run_names.dedup.Perm runs.dedup) := by
  obtain ⟨pls, first, hcp, hhead, hcg⟩ := load_data_inv h
  obtain ⟨p, hp, gs, hgs, hmem⟩ := collectGroups_mem hcg _ hkg
  obtain ⟨_, hgat, _, _, _, _, hy0, hcl, hrl, _, _⟩ := processPair_inv hgs hmem
  obtain ⟨hsubc, hsubr⟩ := gatherPair_sub hgat
  have hsubc' : ∀ c ∈ g.y_condition_names, ∃ pr, pr ∈ conds.zip runs ∧ c = pr.1 := hsubc
  have hsubr' : ∀ r ∈ g.y_run_names, ∃ pr, pr ∈ conds.zip runs ∧ r = pr.2 := hsubr
  refine ⟨hy0, ?_, ?_⟩
  · apply dedup_perm_of_sub_of_len _ hcl
    intro c hc
    obtain ⟨pr, hpr, hce⟩ := hsubc' c hc
    rw [hce]
    exact (List.of_mem_zip hpr).1
  · intro hpf
    apply dedup_perm_of_sub_of_len _ (hrl hpf)
    intro r hr
    obtain ⟨pr, hpr, hre⟩ := hsubr' r hr
    rw [hre]
    exact (List.of_mem_zip hpr).2

/-- Witness for C7 on the concrete fixture. -/
theorem load_data_label_sets_witness :
    sampleGroup.y.length ≠ 0 ∧
    sampleGroup.y_condition_names.dedup.Perm (["c1", "c2"] : List String).dedup ∧
    (false = false →
      sampleGroup.y_run_names.dedup.Perm (["r1", "r2"] : List String).dedup) :=
  load_data_label_sets
    (show load_data "g" sampleDD ["c1", "c2"] ["r1", "r2"] 1 10 false = some sampleOut by
      decide)
    (show (("g", "p", "k"), sampleGroup) ∈ sampleOut by decide)

/-- Counterexample for C9 as stated: on a raw input whose `read_ids` array is
not parallel to `norm_means`, `load_data` emits a group whose read-identifier
column has fewer rows than `y`, violating the claimed equal-row-count
invariant. -/
theorem load_data_ragged_counterexample :
    load_data "g" raggedDD ["c1"] ["r1"] 1 10 false =
      some [(("g", "p", "k"), raggedGroup)] ∧
    raggedGroup.read_ids.length = 1 ∧ raggedGroup.y.length = 2 := by decide

/-- Claim C9 (amended): for raw inputs whose per-site `read_ids` are parallel
to `norm_means`, every emitted group satisfies the encoding invariant: the
columns of `x` and `r` follow the lexicographically sorted distinct observed
labels, and `y`, `x`, `r`, the condition labels, the run labels and the read
identifiers all have the same number of rows.  (Without the parallel-arrays
precondition the read-identifier count can differ, see the counterexample.) -/
theorem load_data_group_encoding
    {idx : String} {dd : DataDict} {conds runs : List String} {mn mx : Nat}
    {pooling : Bool} {out : List ((String × String × String) × SampleGroup)}
    (h : load_data idx dd conds runs mn mx pooling = some out)
    {key : String × String × String} {g : SampleGroup} (hkg : (key, g) ∈ out)
    (hwf : SitesWF dd) :
    g.x = g.y_condition_names.map (fun v => g.condition_names.map (fun l => v == l)) ∧
    List.Sorted strLe g.condition_names ∧
    g.condition_names.Nodup ∧
    g.condition_names.Perm g.y_condition_names.dedup ∧
    g.r = g.y_run_names.map (fun v => g.run_names.map (fun l => v == l)) ∧
    List.Sorted strLe g.run_names ∧
    g.run_names.Nodup ∧
    g.run_names.Perm g.y_run_names.dedup ∧
    g.x.length = g.y.length ∧
    g.r.length = g.y.length ∧
    g.y_condition_names.length = g.y.length ∧
    g.y_run_names.length = g.y.length ∧
    g.read_ids.length = g.y.length := by
  obtain ⟨pls, first, hcp, hhead, hcg⟩ := load_data_inv h
  obtain ⟨p, hp, gs, hgs, hmem⟩ := collectGroups_mem hcg _ hkg
  obtain ⟨_, hgat, hx, hcn, hr, hrn, _, _, _, _, _⟩ := processPair_inv hgs hmem
  obtain ⟨hlc, hlr, hlid⟩ := gatherPair_len hgat
  have hlc' : g.y_condition_names.length = g.y.length := hlc
  have hlr' : g.y_run_names.length = g.y.length := hlr
  have hlid' : g.read_ids.length = g.y.length := hlid hwf
  refine ⟨?_, ?_, ?_, ?_, ?_, ?_, ?_, ?_, ?_, ?_, hlc', hlr', hlid'⟩
  · rw [hx, hcn]; rfl
  · rw [hcn]
    exact List.sorted_insertionSort strLe _
  · rw [hcn]
    exact ((List.perm_insertionSort strLe _).nodup_iff).mpr (List.nodup_dedup _)
  · rw [hcn]
    exact List.perm_insertionSort strLe _
  · rw [hr, hrn]; rfl
  · rw [hrn]
    exact List.sorted_insertionSort strLe _
  · rw [hrn]
    exact ((List.perm_insertionSort strLe _).nodup_iff).mpr (List.nodup_dedup _)
  · rw [hrn]
    exact List.perm_insertionSort strLe _
  · rw [hx]
    show (g.y_condition_names.map _).length = g.y.length
    rw [List.length_map]
    exact hlc'
  · rw [hr]
    show (g.y_run_names.map _).length = g.y.length
    rw [List.length_map]
    exact hlr'

/-- Witness for the amended C9 on the concrete fixture. -/
theorem load_data_group_encoding_witness :
    sampleGroup.x =
      sampleGroup.y_condition_names.map
        (fun v => sampleGroup.condition_names.map (fun l => v == l)) ∧
    List.Sorted strLe sampleGroup.condition_names ∧
    sampleGroup.condition_names.Nodup ∧
    sampleGroup.condition_names.Perm sampleGroup.y_condition_names.dedup ∧
    sampleGroup.r =
      sampleGroup.y_run_names.map
        (fun v => sampleGroup.run_names.map (fun l => v == l)) ∧
    List.Sorted strLe sampleGroup.run_names ∧
    sampleGroup.run_names.Nodup ∧
    sampleGroup.run_names.Perm sampleGroup.y_run_names.dedup ∧
    sampleGroup.x.length = sampleGroup.y.length ∧
    sampleGroup.r.length = sampleGroup.y.length ∧
    sampleGroup.y_condition_names.length = sampleGroup.y.length ∧
    sampleGroup.y_run_names.length = sampleGroup.y.length ∧
    sampleGroup.read_ids.length = sampleGroup.y.length :=
  load_data_group_encoding
    (show load_data "g" sampleDD ["c1", "c2"] ["r1", "r2"] 1 10 false = some sampleOut by
      decide)
    (show (("g", "p", "k"), sampleGroup) ∈ sampleOut by decide)
    (show SitesWF sampleDD by unfold SitesWF; decide)

/-! ### Length lemmas for the result table -/

theorem length_flatMap_const {α β : Type} (l : List α) (f : α → List β) (k : Nat)
    (hf : ∀ a ∈ l, (f a).length = k) : (l.flatMap f).length = k * l.length := by
  induction l with
  | nil => simp
  | cons a rest ih =>
    rw [List.flatMap_cons, List.length_append, hf a (List.mem_cons_self _ _),
      ih (fun b hb => hf b (List.mem_cons_of_mem _ hb)), List.length_cons]
    ring

theorem maskSel_single_length {α : Type} :
    ∀ (gn : List String) (vals : List α) (r : String),
    vals.length = gn.length →
    (maskSel gn vals (fun gname => gname == r)).length = gn.count r := by
  intro gn
  induction gn with
  | nil => intro vals r _; rfl
  | cons g gs ih =>
    intro vals r h
    cases vals with
    | nil => simp at h
    | cons v vs =>
      have hlen : vs.length = gs.length := by simpa using h
      unfold maskSel
      rw [List.zip_cons_cons, List.filter_cons]
      have ihv := ih vs r hlen
      unfold maskSel at ihv
      by_cases hg : (g == r) = true
      · simp [hg, ihv, List.count_cons]
      · simp only [Bool.not_eq_true] at hg
        simp [hg, ihv, List.count_cons]

theorem runNames_nodup (c2r : List (String × List String)) :
    (get_ordered_condition_run_names c2r).2.Nodup :=
  ((List.perm_insertionSort strLe _).nodup_iff).mpr (List.nodup_dedup _)

theorem perRunVec_length {rn gn : List String} {vals : List Rat}
    (hlen : vals.length = gn.length) (hperm : gn.Perm rn) (hnd : rn.Nodup) :
    (perRunVec rn gn vals).length = rn.length := by
  unfold perRunVec
  rw [length_flatMap_const rn _ 1]
  · omega
  · intro r hr
    rw [maskSel_single_length gn vals r hlen, hperm.count_eq]
    exact List.count_eq_one_of_mem hnd hr

theorem pairwiseStats_length (zt : List Rat → List Rat → List Rat → List Rat → Rat × Rat)
    (c2r : List (String × List String)) (fm : FitModel) :
    (pairwiseStats zt c2r fm).length =
      3 * (combinations2 (get_ordered_condition_run_names c2r).1).length :=
  length_flatMap_const _ _ 3 (fun _ _ => rfl)

theorem oneVsAllStats_length (zt : List Rat → List Rat → List Rat → List Rat → Rat × Rat)
    (c2r : List (String × List String)) (fm : FitModel) :
    (oneVsAllStats zt c2r fm).length =
      3 * (get_ordered_condition_run_names c2r).1.length :=
  length_flatMap_const _ _ 3 (fun _ _ => rfl)

theorem wMin_length (fm : FitModel) : (wMin fm).length = fm.w_expected.length := by
  unfold wMin rawW0
  split <;> simp

theorem coverageOf_length (fm : FitModel) : (coverageOf fm).length = fm.y_N.length := by
  unfold coverageOf
  simp

theorem header_length_eq (c2r : List (String × List String)) :
    (get_result_table_header c2r).length =
      12 + 2 * (get_ordered_condition_run_names c2r).2.length +
      3 * (combinations2 (get_ordered_condition_run_names c2r).1).length +
      (if 2 < (get_ordered_condition_run_names c2r).1.length then
        3 * (get_ordered_condition_run_names c2r).1.length else 0) := by
  unfold get_result_table_header
  have hpw : (pairwiseHeaders (get_ordered_condition_run_names c2r).1).length =
      3 * (combinations2 (get_ordered_condition_run_names c2r).1).length :=
    length_flatMap_const _ _ 3 (fun _ _ => rfl)
  have hova : (oneVsAllHeaders (get_ordered_condition_run_names c2r).1).length =
      3 * (get_ordered_condition_run_names c2r).1.length :=
    length_flatMap_const _ _ 3 (fun _ _ => rfl)
  by_cases hn : 2 < (get_ordered_condition_run_names c2r).1.length
  · rw [if_pos hn, if_pos hn]
    simp only [List.length_append, List.length_map, List.length_cons, List.length_nil,
      hpw, hova]
    omega
  · rw [if_neg hn, if_neg hn]
    simp only [List.length_append, List.length_map, List.length_cons, List.length_nil,
      hpw]
    omega

theorem resultRow_length
    (ov : Rat × Rat → Rat × Rat → Rat × List Rat)
    (zt : List Rat → List Rat → List Rat → List Rat → Rat × Rat)
    (c2r : List (String × List String)) (key : String × String × String) (fm : FitModel)
    (hcdf : ∀ a b : Rat × Rat, (ov a b).2.length = 4)
    (hwf : FitWF fm (get_ordered_condition_run_names c2r).2) :
    (resultRow ov zt c2r key fm).length =
      12 + 2 * (get_ordered_condition_run_names c2r).2.length +
      3 * (combinations2 (get_ordered_condition_run_names c2r).1).length +
      (if 2 < (get_ordered_condition_run_names c2r).1.length then
        3 * (get_ordered_condition_run_names c2r).1.length else 0) := by
  obtain ⟨hw, hN, hperm⟩ := hwf
  have hnd := runNames_nodup c2r
  have h1 : (perRunVec (get_ordered_condition_run_names c2r).2 fm.x_group_names
      (wMin fm)).length = (get_ordered_condition_run_names c2r).2.length :=
    perRunVec_length (by rw [wMin_length, hw]) hperm hnd
  have h2 : (perRunVec (get_ordered_condition_run_names c2r).2 fm.x_group_names
      (coverageOf fm)).length = (get_ordered_condition_run_names c2r).2.length :=
    perRunVec_length (by rw [coverageOf_length, hN]) hperm hnd
  unfold resultRow
  by_cases hn : 2 < (get_ordered_condition_run_names c2r).1.length
  · rw [if_pos hn, if_pos hn]
    simp only [List.length_append, List.length_map, List.length_cons, List.length_nil,
      h1, h2, hcdf, pairwiseStats_length, oneVsAllStats_length]
    omega
  · rw [if_neg hn, if_neg hn]
    simp only [List.length_append, List.length_map, List.length_cons, List.length_nil,
      h1, h2, hcdf, pairwiseStats_length]
    omega

/-! ### Claims about the result table -/

/-- Claim C2: for every valid `cond2run` mapping and every model (satisfying
the spec's row-alignment invariant) given to `generate_result_table`, the
produced row has length exactly equal to the header produced by
`get_result_table_header` for the same mapping.  The overlap primitive is
assumed to honor its spec contract of returning four intersection
coordinates. -/
theorem generate_result_table_row_length
    (ov : Rat × Rat → Rat × Rat → Rat × List Rat)
    (zt : List Rat → List Rat → List Rat → List Rat → Rat × Rat)
    (models : List ((String × String × String) × FitModel))
    (c2r : List (String × List String)) (km : (String × String × String) × FitModel)
    (hmem : km ∈ models)
    (hcdf : ∀ a b : Rat × Rat, (ov a b).2.length = 4)
    (hwf : FitWF km.2 (get_ordered_condition_run_names c2r).2) :
    resultRow ov zt c2r km.1 km.2 ∈ generate_result_table ov zt models c2r ∧
    (resultRow ov zt c2r km.1 km.2).length = (get_result_table_header c2r).length := by
  constructor
  · exact List.mem_map_of_mem _ hmem
  · rw [resultRow_length ov zt c2r km.1 km.2 hcdf hwf, header_length_eq]

/-- Witness for C2 on the concrete fixtures. -/
theorem generate_result_table_row_length_witness :
    resultRow ovFix ztFix c2rFix ("g", "p", "k") fmFix ∈
      generate_result_table ovFix ztFix modelsFix c2rFix ∧
    (resultRow ovFix ztFix c2rFix ("g", "p", "k") fmFix).length =
      (get_result_table_header c2rFix).length :=
  generate_result_table_row_length ovFix ztFix modelsFix c2rFix (("g", "p", "k"), fmFix)
    (by unfold modelsFix; exact List.mem_singleton.mpr rfl)
    (fun _ _ => rfl)
    (by unfold FitWF; refine ⟨by decide, by decide, by decide⟩)

theorem resultRow_drop12
    (ov : Rat × Rat → Rat × Rat → Rat × List Rat)
    (zt : List Rat → List Rat → List Rat → List Rat → Rat × Rat)
    (c2r : List (String × List String)) (key : String × String × String) (fm : FitModel)
    (hcdf : ∀ a b : Rat × Rat, (ov a b).2.length = 4) :
    (resultRow ov zt c2r key fm).drop 12 =
      (perRunVec (get_ordered_condition_run_names c2r).2 fm.x_group_names
        (wMin fm)).map TCell.num ++
      ((perRunVec (get_ordered_condition_run_names c2r).2 fm.x_group_names
        (coverageOf fm)).map TCell.num ++
       ((pairwiseStats zt c2r fm).map TCell.num ++
        (if 2 < (get_ordered_condition_run_names c2r).1.length then
          (oneVsAllStats zt c2r fm).map TCell.num else []))) := by
  have h0 : (resultRow ov zt c2r key fm).drop 12 =
      List.drop 4 ((ov fm.mu_tau_expected (sigma2Of fm)).2.map TCell.num ++
        ((perRunVec (get_ordered_condition_run_names c2r).2 fm.x_group_names
          (wMin fm)).map TCell.num ++
         ((perRunVec (get_ordered_condition_run_names c2r).2 fm.x_group_names
           (coverageOf fm)).map TCell.num ++
          ((pairwiseStats zt c2r fm).map TCell.num ++
           (if 2 < (get_ordered_condition_run_names c2r).1.length then
             (oneVsAllStats zt c2r fm).map TCell.num else []))))) := by
    unfold resultRow
    simp only [List.append_assoc]
    rfl
  rw [h0]
  exact List.drop_left' (by rw [List.length_map, hcdf])

/-- Claim C3: in every emitted row, if `mu[1] < mu[0]` then the reported mu
and sigma2 pairs are reversed and `w_min = 1 - w[:,0]`, otherwise
`w_min = w[:,0]`; consequently the reported `mu_min` and `mu_max` cells are
the smaller and larger component mean, so `mu_min <= mu_max` in every row. -/
theorem resultRow_orientation
    (ov : Rat × Rat → Rat × Rat → Rat × List Rat)
    (zt : List Rat → List Rat → List Rat → List Rat → Rat × Rat)
    (c2r : List (String × List String)) (key : String × String × String) (fm : FitModel)
    (hcdf : ∀ a b : Rat × Rat, (ov a b).2.length = 4)
    (hwf : FitWF fm (get_ordered_condition_run_names c2r).2) :
    (fm.mu_tau_expected.2 < fm.mu_tau_expected.1 →
      muNorm fm = (fm.mu_tau_expected.2, fm.mu_tau_expected.1) ∧
      sigma2Norm fm = ((sigma2Of fm).2, (sigma2Of fm).1) ∧
      wMin fm = (rawW0 fm).map (fun v => 1 - v)) ∧
    (¬ fm.mu_tau_expected.2 < fm.mu_tau_expected.1 →
      muNorm fm = fm.mu_tau_expected ∧ sigma2Norm fm = sigma2Of fm ∧
      wMin fm = rawW0 fm) ∧
    (resultRow ov zt c2r key fm)[3]? =
      some (TCell.num (min fm.mu_tau_expected.1 fm.mu_tau_expected.2)) ∧
    (resultRow ov zt c2r key fm)[4]? =
      some (TCell.num (max fm.mu_tau_expected.1 fm.mu_tau_expected.2)) ∧
    min fm.mu_tau_expected.1 fm.mu_tau_expected.2 ≤
      max fm.mu_tau_expected.1 fm.mu_tau_expected.2 ∧
    ((resultRow ov zt c2r key fm).drop 12).take
        (get_ordered_condition_run_names c2r).2.length =
      (perRunVec (get_ordered_condition_run_names c2r).2 fm.x_group_names
        (wMin fm)).map TCell.num := by
  obtain ⟨hw, hN, hperm⟩ := hwf
  have hmin : (muNorm fm).1 = min fm.mu_tau_expected.1 fm.mu_tau_expected.2 := by
    unfold muNorm
    rcases lt_or_ge fm.mu_tau_expected.2 fm.mu_tau_expected.1 with h | h
    · rw [if_pos h, min_eq_right h.le]
    · rw [if_neg (not_lt.mpr h), min_eq_left h]
  have hmax : (muNorm fm).2 = max fm.mu_tau_expected.1 fm.mu_tau_expected.2 := by
    unfold muNorm
    rcases lt_or_ge fm.mu_tau_expected.2 fm.mu_tau_expected.1 with h | h
    · rw [if_pos h, max_eq_left h.le]
    · rw [if_neg (not_lt.mpr h), max_eq_right h]
  refine ⟨?_, ?_, ?_, ?_, min_le_max, ?_⟩
  · intro h
    unfold muNorm sigma2Norm wMin
    rw [if_pos h, if_pos h, if_pos h]
    exact ⟨rfl, rfl, rfl⟩
  · intro h
    unfold muNorm sigma2Norm wMin
    rw [if_neg h, if_neg h, if_neg h]
    exact ⟨rfl, rfl, rfl⟩
  · have h3 : (resultRow ov zt c2r key fm)[3]? = some (TCell.num (muNorm fm).1) := rfl
    rw [h3, hmin]
  · have h4 : (resultRow ov zt c2r key fm)[4]? = some (TCell.num (muNorm fm).2) := rfl
    rw [h4, hmax]
  · rw [resultRow_drop12 ov zt c2r key fm hcdf]
    exact List.take_left'
      (by rw [List.length_map,
        perRunVec_length (by rw [wMin_length, hw]) hperm (runNames_nodup c2r)])

/-- Witness for C3 on the concrete fixtures. -/
theorem resultRow_orientation_witness :
    (fmFix.mu_tau_expected.2 < fmFix.mu_tau_expected.1 →
      muNorm fmFix = (fmFix.mu_tau_expected.2, fmFix.mu_tau_expected.1) ∧
      sigma2Norm fmFix = ((sigma2Of fmFix).2, (sigma2Of fmFix).1) ∧
      wMin fmFix = (rawW0 fmFix).map (fun v => 1 - v)) ∧
    (¬ fmFix.mu_tau_expected.2 < fmFix.mu_tau_expected.1 →
      muNorm fmFix = fmFix.mu_tau_expected ∧ sigma2Norm fmFix = sigma2Of fmFix ∧
      wMin fmFix = rawW0 fmFix) ∧
    (resultRow ovFix ztFix c2rFix ("g", "p", "k") fmFix)[3]? =
      some (TCell.num (min fmFix.mu_tau_expected.1 fmFix.mu_tau_expected.2)) ∧
    (resultRow ovFix ztFix c2rFix ("g", "p", "k") fmFix)[4]? =
      some (TCell.num (max fmFix.mu_tau_expected.1 fmFix.mu_tau_expected.2)) ∧
    min fmFix.mu_tau_expected.1 fmFix.mu_tau_expected.2 ≤
      max fmFix.mu_tau_expected.1 fmFix.mu_tau_expected.2 ∧
    ((resultRow ovFix ztFix c2rFix ("g", "p", "k") fmFix).drop 12).take
        (get_ordered_condition_run_names c2rFix).2.length =
      (perRunVec (get_ordered_condition_run_names c2rFix).2 fmFix.x_group_names
        (wMin fmFix)).map TCell.num :=
  resultRow_orientation ovFix ztFix c2rFix ("g", "p", "k") fmFix
    (fun _ _ => rfl)
    (by unfold FitWF; refine ⟨by decide, by decide, by decide⟩)

/-- Claim C4: the pairwise statistics cells of every emitted row are computed
from the pre-normalization `w[:, 0]` column (`fm.w_expected.map Prod.fst`,
not the orientation-normalized `wMin`), pooled over the runs of each
condition and weighted by per-run coverage, yielding the test p-value, the
absolute difference of mean pooled weights, and the absolute z-score. -/
theorem resultRow_pairwise_from_raw_weights
    (ov : Rat × Rat → Rat × Rat → Rat × List Rat)
    (zt : List Rat → List Rat → List Rat → List Rat → Rat × Rat)
    (c2r : List (String × List String)) (key : String × String × String) (fm : FitModel)
    (hcdf : ∀ a b : Rat × Rat, (ov a b).2.length = 4)
    (hwf : FitWF fm (get_ordered_condition_run_names c2r).2) :
    ((resultRow ov zt c2r key fm).drop
        (12 + 2 * (get_ordered_condition_run_names c2r).2.length)).take
      (3 * (combinations2 (get_ordered_condition_run_names c2r).1).length) =
    ((combinations2 (get_ordered_condition_run_names c2r).1).flatMap (fun pr =>
      [(zt (maskSel fm.x_group_names (fm.w_expected.map Prod.fst)
            (fun gname => ((c2r.lookup pr.1).getD []).contains gname))
          (maskSel fm.x_group_names (fm.w_expected.map Prod.fst)
            (fun gname => ((c2r.lookup pr.2).getD []).contains gname))
          (maskSel fm.x_group_names (fm.y_N.map (fun q => q.1 + q.2))
            (fun gname => ((c2r.lookup pr.1).getD []).contains gname))
          (maskSel fm.x_group_names (fm.y_N.map (fun q => q.1 + q.2))
            (fun gname => ((c2r.lookup pr.2).getD []).contains gname))).2,
       |listMean (maskSel fm.x_group_names (fm.w_expected.map Prod.fst)
            (fun gname => ((c2r.lookup pr.1).getD []).contains gname)) -
        listMean (maskSel fm.x_group_names (fm.w_expected.map Prod.fst)
            (fun gname => ((c2r.lookup pr.2).getD []).contains gname))|,
       |(zt (maskSel fm.x_group_names (fm.w_expected.map Prod.fst)
            (fun gname => ((c2r.lookup pr.1).getD []).contains gname))
          (maskSel fm.x_group_names (fm.w_expected.map Prod.fst)
            (fun gname => ((c2r.lookup pr.2).getD []).contains gname))
          (maskSel fm.x_group_names (fm.y_N.map (fun q => q.1 + q.2))
            (fun gname => ((c2r.lookup pr.1).getD []).contains gname))
          (maskSel fm.x_group_names (fm.y_N.map (fun q => q.1 + q.2))
            (fun gname => ((c2r.lookup pr.2).getD []).contains gname))).1|])).map
      TCell.num := by
  obtain ⟨hw, hN, hperm⟩ := hwf
  have hnd := runNames_nodup c2r
  have hB : ((perRunVec (get_ordered_condition_run_names c2r).2 fm.x_group_names
      (wMin fm)).map TCell.num).length = (get_ordered_condition_run_names c2r).2.length := by
    rw [List.length_map, perRunVec_length (by rw [wMin_length, hw]) hperm hnd]
  have hC : ((perRunVec (get_ordered_condition_run_names c2r).2 fm.x_group_names
      (coverageOf fm)).map TCell.num).length =
      (get_ordered_condition_run_names c2r).2.length := by
    rw [List.length_map, perRunVec_length (by rw [coverageOf_length, hN]) hperm hnd]
  have h1 : (resultRow ov zt c2r key fm).drop
      (12 + 2 * (get_ordered_condition_run_names c2r).2.length) =
      (pairwiseStats zt c2r fm).map TCell.num ++
      (if 2 < (get_ordered_condition_run_names c2r).1.length then
        (oneVsAllStats zt c2r fm).map TCell.num else []) := by
    rw [← List.drop_drop, resultRow_drop12 ov zt c2r key fm hcdf]
    have e2 : 2 * (get_ordered_condition_run_names c2r).2.length =
        (get_ordered_condition_run_names c2r).2.length +
        (get_ordered_condition_run_names c2r).2.length := by omega
    rw [e2, ← List.drop_drop, List.drop_left' hB, List.drop_left' hC]
  rw [h1, List.take_left' (by rw [List.length_map, pairwiseStats_length])]
  rfl

/-- Witness for C4 on the concrete fixtures. -/
theorem resultRow_pairwise_from_raw_weights_witness :
    ((resultRow ovFix ztFix c2rFix ("g", "p", "k") fmFix).drop
        (12 + 2 * (get_ordered_condition_run_names c2rFix).2.length)).take
      (3 * (combinations2 (get_ordered_condition_run_names c2rFix).1).length) =
    ((combinations2 (get_ordered_condition_run_names c2rFix).1).flatMap (fun pr =>
      [(ztFix (maskSel fmFix.x_group_names (fmFix.w_expected.map Prod.fst)
            (fun gname => ((c2rFix.lookup pr.1).getD []).contains gname))
          (maskSel fmFix.x_group_names (fmFix.w_expected.map Prod.fst)
            (fun gname => ((c2rFix.lookup pr.2).getD []).contains gname))
          (maskSel fmFix.x_group_names (fmFix.y_N.map (fun q => q.1 + q.2))
            (fun gname => ((c2rFix.lookup pr.1).getD []).contains gname))
          (maskSel fmFix.x_group_names (fmFix.y_N.map (fun q => q.1 + q.2))
            (fun gname => ((c2rFix.lookup pr.2).getD []).contains gname))).2,
       |listMean (maskSel fmFix.x_group_names (fmFix.w_expected.map Prod.fst)
            (fun gname => ((c2rFix.lookup pr.1).getD []).contains gname)) -
        listMean (maskSel fmFix.x_group_names (fmFix.w_expected.map Prod.fst)
            (fun gname => ((c2rFix.lookup pr.2).getD []).contains gname))|,
       |(ztFix (maskSel fmFix.x_group_names (fmFix.w_expected.map Prod.fst)
            (fun gname => ((c2rFix.lookup pr.1).getD []).contains gname))
          (maskSel fmFix.x_group_names (fmFix.w_expected.map Prod.fst)
            (fun gname => ((c2rFix.lookup pr.2).getD []).contains gname))
          (maskSel fmFix.x_group_names (fmFix.y_N.map (fun q => q.1 + q.2))
            (fun gname => ((c2rFix.lookup pr.1).getD []).contains gname))
          (maskSel fmFix.x_group_names (fmFix.y_N.map (fun q => q.1 + q.2))
            (fun gname => ((c2rFix.lookup pr.2).getD []).contains gname))).1|])).map
      TCell.num :=
  resultRow_pairwise_from_raw_weights ovFix ztFix c2rFix ("g", "p", "k") fmFix
    (fun _ _ => rfl)
    (by unfold FitWF; refine ⟨by decide, by decide, by decide⟩)

theorem header_drop12 (c2r : List (String × List String)) :
    (get_result_table_header c2r).drop 12 =
      (get_ordered_condition_run_names c2r).2.map (fun r => "w_min_" ++ r) ++
      ((get_ordered_condition_run_names c2r).2.map (fun r => "coverage_" ++ r) ++
       (pairwiseHeaders (get_ordered_condition_run_names c2r).1 ++
        (if 2 < (get_ordered_condition_run_names c2r).1.length then
          oneVsAllHeaders (get_ordered_condition_run_names c2r).1 else []))) := by
  unfold get_result_table_header
  simp only [List.append_assoc]
  rfl

/-- Claim C8: the one-vs-all statistic columns appear in the header, and the
corresponding entries appear in every emitted row, exactly when the number
of distinct condition names derived from `cond2run` exceeds 2: both the
header and the row consist of `12 + 2 * |run_names|` fixed cells, the
`3 * C(n, 2)` pairwise cells, and then the one-vs-all block when `2 < n`
and nothing otherwise. -/
theorem one_vs_all_columns_iff
    (ov : Rat × Rat → Rat × Rat → Rat × List Rat)
    (zt : List Rat → List Rat → List Rat → List Rat → Rat × Rat)
    (c2r : List (String × List String)) (key : String × String × String) (fm : FitModel)
    (hcdf : ∀ a b : Rat × Rat, (ov a b).2.length = 4)
    (hwf : FitWF fm (get_ordered_condition_run_names c2r).2) :
    (get_result_table_header c2r).length =
      12 + 2 * (get_ordered_condition_run_names c2r).2.length +
      3 * (combinations2 (get_ordered_condition_run_names c2r).1).length +
      (if 2 < (get_ordered_condition_run_names c2r).1.length then
        3 * (get_ordered_condition_run_names c2r).1.length else 0) ∧
    (resultRow ov zt c2r key fm).length =
      12 + 2 * (get_ordered_condition_run_names c2r).2.length +
      3 * (combinations2 (get_ordered_condition_run_names c2r).1).length +
      (if 2 < (get_ordered_condition_run_names c2r).1.length then
        3 * (get_ordered_condition_run_names c2r).1.length else 0) ∧
    (get_result_table_header c2r).drop
        (12 + 2 * (get_ordered_condition_run_names c2r).2.length +
         3 * (combinations2 (get_ordered_condition_run_names c2r).1).length) =
      (if 2 < (get_ordered_condition_run_names c2r).1.length then
        oneVsAllHeaders (get_ordered_condition_run_names c2r).1 else []) ∧
    (resultRow ov zt c2r key fm).drop
        (12 + 2 * (get_ordered_condition_run_names c2r).2.length +
         3 * (combinations2 (get_ordered_condition_run_names c2r).1).length) =
      (if 2 < (get_ordered_condition_run_names c2r).1.length then
        (oneVsAllStats zt c2r fm).map TCell.num else []) := by
  obtain ⟨hw, hN, hperm⟩ := hwf
  have hnd := runNames_nodup c2r
  have hB : ((perRunVec (get_ordered_condition_run_names c2r).2 fm.x_group_names
      (wMin fm)).map TCell.num).length = (get_ordered_condition_run_names c2r).2.length := by
    rw [List.length_map, perRunVec_length (by rw [wMin_length, hw]) hperm hnd]
  have hC : ((perRunVec (get_ordered_condition_run_names c2r).2 fm.x_group_names
      (coverageOf fm)).map TCell.num).length =
      (get_ordered_condition_run_names c2r).2.length := by
    rw [List.length_map, perRunVec_length (by rw [coverageOf_length, hN]) hperm hnd]
  have hBh : ((get_ordered_condition_run_names c2r).2.map
      (fun r => "w_min_" ++ r)).length = (get_ordered_condition_run_names c2r).2.length :=
    List.length_map _ _
  have hCh : ((get_ordered_condition_run_names c2r).2.map
      (fun r => "coverage_" ++ r)).length = (get_ordered_condition_run_names c2r).2.length :=
    List.length_map _ _
  have hPh : (pairwiseHeaders (get_ordered_condition_run_names c2r).1).length =
      3 * (combinations2 (get_ordered_condition_run_names c2r).1).length :=
    length_flatMap_const _ _ 3 (fun _ _ => rfl)
  have hPr : ((pairwiseStats zt c2r fm).map TCell.num).length =
      3 * (combinations2 (get_ordered_condition_run_names c2r).1).length := by
    rw [List.length_map, pairwiseStats_length]
  refine ⟨header_length_eq c2r, resultRow_length ov zt c2r key fm hcdf ⟨hw, hN, hperm⟩,
    ?_, ?_⟩
  · have e0 : 12 + 2 * (get_ordered_condition_run_names c2r).2.length +
        3 * (combinations2 (get_ordered_condition_run_names c2r).1).length =
        12 + (2 * (get_ordered_condition_run_names c2r).2.length +
          3 * (combinations2 (get_ordered_condition_run_names c2r).1).length) := by omega
    rw [e0, ← List.drop_drop, header_drop12 c2r]
    have e2 : 2 * (get_ordered_condition_run_names c2r).2.length +
        3 * (combinations2 (get_ordered_condition_run_names c2r).1).length =
        (get_ordered_condition_run_names c2r).2.length +
        ((get_ordered_condition_run_names c2r).2.length +
         3 * (combinations2 (get_ordered_condition_run_names c2r).1).length) := by omega
    rw [e2, ← List.drop_drop, List.drop_left' hBh, ← List.drop_drop,
      List.drop_left' hCh, List.drop_left' hPh]
  · have e0 : 12 + 2 * (get_ordered_condition_run_names c2r).2.length +
        3 * (combinations2 (get_ordered_condition_run_names c2r).1).length =
        12 + (2 * (get_ordered_condition_run_names c2r).2.length +
          3 * (combinations2 (get_ordered_condition_run_names c2r).1).length) := by omega
    rw [e0, ← List.drop_drop, resultRow_drop12 ov zt c2r key fm hcdf]
    have e2 : 2 * (get_ordered_condition_run_names c2r).2.length +
        3 * (combinations2 (get_ordered_condition_run_names c2r).1).length =
        (get_ordered_condition_run_names c2r).2.length +
        ((get_ordered_condition_run_names c2r).2.length +
         3 * (combinations2 (get_ordered_condition_run_names c2r).1).length) := by omega
    rw [e2, ← List.drop_drop, List.drop_left' hB, ← List.drop_drop,
      List.drop_left' hC, List.drop_left' hPr]

/-- Witness for C8 on the concrete three-condition fixtures. -/
theorem one_vs_all_columns_iff_witness :
    (get_result_table_header c2rFix).length =
      12 + 2 * (get_ordered_condition_run_names c2rFix).2.length +
      3 * (combinations2 (get_ordered_condition_run_names c2rFix).1).length +
      (if 2 < (get_ordered_condition_run_names c2rFix).1.length then
        3 * (get_ordered_condition_run_names c2rFix).1.length else 0) ∧
    (resultRow ovFix ztFix c2rFix ("g", "p", "k") fmFix).length =
      12 + 2 * (get_ordered_condition_run_names c2rFix).2.length +
      3 * (combinations2 (get_ordered_condition_run_names c2rFix).1).length +
      (if 2 < (get_ordered_condition_run_names c2rFix).1.length then
        3 * (get_ordered_condition_run_names c2rFix).1.length else 0) ∧
    (get_result_table_header c2rFix).drop
        (12 + 2 * (get_ordered_condition_run_names c2rFix).2.length +
         3 * (combinations2 (get_ordered_condition_run_names c2rFix).1).length) =
      (if 2 < (get_ordered_condition_run_names c2rFix).1.length then
        oneVsAllHeaders (get_ordered_condition_run_names c2rFix).1 else []) ∧
    (resultRow ovFix ztFix c2rFix ("g", "p", "k") fmFix).drop
        (12 + 2 * (get_ordered_condition_run_names c2rFix).2.length +
         3 * (combinations2 (get_ordered_condition_run_names c2rFix).1).length) =
      (if 2 < (get_ordered_condition_run_names c2rFix).1.length then
        (oneVsAllStats ztFix c2rFix fmFix).map TCell.num else []) :=
  one_vs_all_columns_iff ovFix ztFix c2rFix ("g", "p", "k") fmFix
    (fun _ _ => rfl)
    (by unfold FitWF; refine ⟨by decide, by decide, by decide⟩)

/-! ### Lemmas about the model store -/

theorem encodeValue_id (pn : String) (v : HValue) : encodeValue pn v = v := by
  unfold encodeValue encodeUTF8
  split
  · cases v with
    | texts s => simp
    | ints a => rfl
    | mat m => rfl
  · rfl

theorem nodup_concat {l : List String} {a : String} (hl : l.Nodup) (ha : a ∉ l) :
    (l ++ [a]).Nodup := by
  rw [List.nodup_append]
  exact ⟨hl, List.nodup_singleton a, fun x hx hxa => ha ((List.mem_singleton.mp hxa) ▸ hx)⟩

theorem lookup_none_not_mem {β : Type} {l : List (String × β)} {k : String}
    (h : l.lookup k = none) : k ∉ l.map Prod.fst := by
  intro hk
  obtain ⟨p, hp, hpk⟩ := List.mem_map.mp hk
  have := List.lookup_eq_none_iff.mp h p hp
  rw [hpk] at this
  simp at this

theorem lookup_append_none {β : Type} {l : List (String × β)} {k a : String} {b : β}
    (hl : l.lookup k = none) (hk : k ≠ a) : (l ++ [(a, b)]).lookup k = none := by
  induction l with
  | nil =>
    rw [List.nil_append, List.lookup_cons,
      show (k == a) = false from beq_eq_false_iff_ne.mpr hk]
    rfl
  | cons p rest ih =>
    obtain ⟨a0, b0⟩ := p
    rw [List.lookup_cons] at hl
    rw [List.cons_append, List.lookup_cons]
    cases hka : (k == a0) with
    | true => rw [hka] at hl; simp at hl
    | false => rw [hka] at hl; exact ih hl

theorem lookup_append_left {β : Type} {l l2 : List (String × β)} {k : String} {v : β}
    (h : l.lookup k = some v) : (l ++ l2).lookup k = some v := by
  induction l with
  | nil => simp [List.lookup] at h
  | cons p rest ih =>
    obtain ⟨a0, b0⟩ := p
    rw [List.lookup_cons] at h
    rw [List.cons_append, List.lookup_cons]
    cases hka : (k == a0) with
    | true => rw [hka] at h; exact h
    | false => rw [hka] at h; exact ih h

theorem lookup_append_right {β : Type} {l l2 : List (String × β)} {k : String}
    (h : l.lookup k = none) : (l ++ l2).lookup k = l2.lookup k := by
  induction l with
  | nil => rfl
  | cons p rest ih =>
    obtain ⟨a0, b0⟩ := p
    rw [List.lookup_cons] at h
    rw [List.cons_append, List.lookup_cons]
    cases hka : (k == a0) with
    | true => rw [hka] at h; simp at h
    | false => rw [hka] at h; exact ih h

theorem writeItems_eq {f : String → HValue → HValue} (hf : ∀ pn v, f pn v = v) :
    ∀ {ps : List (String × HValue)} {acc qs : ParamGroup},
    writeItems f acc ps = some qs → qs = acc ++ ps := by
  intro ps
  induction ps with
  | nil =>
    intro acc qs h
    unfold writeItems at h
    simp only [Option.some.injEq] at h
    simp [← h]
  | cons pv rest ih =>
    intro acc qs h
    obtain ⟨pn, v⟩ := pv
    unfold writeItems at h
    by_cases hl : ((acc.lookup pn).isSome : Bool) = true
    · rw [if_pos hl] at h; simp at h
    · rw [if_neg hl] at h
      have := ih h
      rw [this, hf pn v, List.append_assoc]
      rfl

theorem writeItems_nodup {f : String → HValue → HValue} :
    ∀ {ps : List (String × HValue)} {acc qs : ParamGroup},
    writeItems f acc ps = some qs → (acc.map Prod.fst).Nodup →
    (qs.map Prod.fst).Nodup := by
  intro ps
  induction ps with
  | nil =>
    intro acc qs h hacc
    unfold writeItems at h
    simp only [Option.some.injEq] at h
    rw [← h]
    exact hacc
  | cons pv rest ih =>
    intro acc qs h hacc
    obtain ⟨pn, v⟩ := pv
    unfold writeItems at h
    by_cases hl : ((acc.lookup pn).isSome : Bool) = true
    · rw [if_pos hl] at h; simp at h
    · rw [if_neg hl] at h
      refine ih h ?_
      rw [List.map_append]
      exact nodup_concat hacc
        (lookup_none_not_mem (Option.not_isSome_iff_eq_none.mp (by simpa using hl)))

theorem writeItems_success {f : String → HValue → HValue} (hf : ∀ pn v, f pn v = v) :
    ∀ {ps : List (String × HValue)} {acc : ParamGroup},
    (ps.map Prod.fst).Nodup → (∀ pv ∈ ps, acc.lookup pv.1 = none) →
    writeItems f acc ps = some (acc ++ ps) := by
  intro ps
  induction ps with
  | nil => intro acc _ _; simp [writeItems]
  | cons pv rest ih =>
    intro acc hnd hdisj
    obtain ⟨pn, v⟩ := pv
    have hnd' : (pn :: rest.map Prod.fst).Nodup := by simpa using hnd
    obtain ⟨hpn_not, hrest_nd⟩ := List.nodup_cons.mp hnd'
    unfold writeItems
    have hnone : acc.lookup pn = none := hdisj (pn, v) (List.mem_cons_self _ _)
    rw [if_neg (by simp [hnone])]
    rw [hf pn v]
    have hrest : writeItems f (acc ++ [(pn, v)]) rest =
        some ((acc ++ [(pn, v)]) ++ rest) := by
      refine ih hrest_nd ?_
      intro pv2 hpv2
      refine lookup_append_none (hdisj pv2 (List.mem_cons_of_mem _ hpv2)) ?_
      intro heq
      have hmem : pv2.1 ∈ rest.map Prod.fst := List.mem_map_of_mem Prod.fst hpv2
      rw [heq] at hmem
      exact hpn_not hmem
    rw [hrest, List.append_assoc]
    rfl

theorem saveNode_some {op : Option ParamGroup} {q : ParamGroup}
    (h : saveNode op = some q) :
    q = op.getD [] ∧ (q.map Prod.fst).Nodup := by
  cases op with
  | none =>
    unfold saveNode at h
    simp only [Option.some.injEq] at h
    subst h
    exact ⟨rfl, List.nodup_nil⟩
  | some ps =>
    unfold saveNode at h
    have h1 := writeItems_eq encodeValue_id h
    have h2 := writeItems_nodup h List.nodup_nil
    simp only [List.nil_append] at h1
    exact ⟨h1, h2⟩

theorem saveNodes_some {n : Nodes} {nz : List (String × ParamGroup)}
    (h : saveNodes n = some nz) :
    nz = [("x", n.x.getD []), ("y", n.y.getD []), ("w", n.w.getD []),
      ("mu_tau", n.mu_tau.getD []), ("z", n.z.getD [])] ∧
    ((n.x.getD []).map Prod.fst).Nodup ∧ ((n.y.getD []).map Prod.fst).Nodup ∧
    ((n.w.getD []).map Prod.fst).Nodup ∧ ((n.mu_tau.getD []).map Prod.fst).Nodup ∧
    ((n.z.getD []).map Prod.fst).Nodup := by
  unfold saveNodes at h
  cases hx : saveNode n.x with
  | none => rw [hx] at h; simp at h
  | some q1 =>
    rw [hx] at h
    simp only [Option.pure_def, Option.bind_eq_bind, Option.some_bind] at h
    cases hy : saveNode n.y with
    | none => rw [hy] at h; simp at h
    | some q2 =>
      rw [hy] at h
      simp only [Option.pure_def, Option.bind_eq_bind, Option.some_bind] at h
      cases hw : saveNode n.w with
      | none => rw [hw] at h; simp at h
      | some q3 =>
        rw [hw] at h
        simp only [Option.pure_def, Option.bind_eq_bind, Option.some_bind] at h
        cases hm : saveNode n.mu_tau with
        | none => rw [hm] at h; simp at h
        | some q4 =>
          rw [hm] at h
          simp only [Option.pure_def, Option.bind_eq_bind, Option.some_bind] at h
          cases hz : saveNode n.z with
          | none => rw [hz] at h; simp at h
          | some q5 =>
            rw [hz] at h
            simp only [Option.pure_def, Option.bind_eq_bind, Option.some_bind,
              Option.some.injEq] at h
            obtain ⟨e1, d1⟩ := saveNode_some hx
            obtain ⟨e2, d2⟩ := saveNode_some hy
            obtain ⟨e3, d3⟩ := saveNode_some hw
            obtain ⟨e4, d4⟩ := saveNode_some hm
            obtain ⟨e5, d5⟩ := saveNode_some hz
            subst e1 e2 e3 e4 e5
            rw [← h]
            exact ⟨rfl, d1, d2, d3, d4, d5⟩

theorem savePos_some {kmer : String} {m : GMM} {pg : PosGroup}
    (h : savePos kmer m = some pg) :
    pg = ⟨kmer, m.info, [("x", m.nodes.x.getD []), ("y", m.nodes.y.getD []),
      ("w", m.nodes.w.getD []), ("mu_tau", m.nodes.mu_tau.getD []),
      ("z", m.nodes.z.getD [])]⟩ ∧
    ((m.nodes.x.getD []).map Prod.fst).Nodup ∧
    ((m.nodes.y.getD []).map Prod.fst).Nodup ∧
    ((m.nodes.w.getD []).map Prod.fst).Nodup ∧
    ((m.nodes.mu_tau.getD []).map Prod.fst).Nodup ∧
    ((m.nodes.z.getD []).map Prod.fst).Nodup := by
  unfold savePos at h
  cases hi : writeItems (fun _ v => v) [] m.info with
  | none => rw [hi] at h; simp at h
  | some inf =>
    rw [hi] at h
    simp only [Option.pure_def, Option.bind_eq_bind, Option.some_bind] at h
    cases hn : saveNodes m.nodes with
    | none => rw [hn] at h; simp at h
    | some nz =>
      rw [hn] at h
      simp only [Option.pure_def, Option.bind_eq_bind, Option.some_bind,
        Option.some.injEq] at h
      obtain ⟨hnz, d1, d2, d3, d4, d5⟩ := saveNodes_some hn
      have hinf : inf = m.info := by
        have := writeItems_eq (fun _ _ => rfl) hi
        simpa using this
      rw [← h, hinf, hnz]
      exact ⟨rfl, d1, d2, d3, d4, d5⟩

theorem savePos_canonPG {kmer : String} {m : GMM} {pg : PosGroup}
    (h : savePos kmer m = some pg) : CanonPG pg := by
  obtain ⟨hpg, d1, d2, d3, d4, d5⟩ := savePos_some h
  exact ⟨_, _, _, _, _, by rw [hpg], d1, d2, d3, d4, d5⟩

theorem loadNode_append :
    ∀ {qs init : ParamGroup},
    (qs.map Prod.fst).Nodup → (∀ pv ∈ qs, init.lookup pv.1 = none) →
    loadNode init qs = init ++ qs := by
  intro qs
  induction qs with
  | nil => intro init _ _; simp [loadNode]
  | cons pv rest ih =>
    intro init hnd hdisj
    obtain ⟨pn, v⟩ := pv
    have hnd' : (pn :: rest.map Prod.fst).Nodup := by simpa using hnd
    obtain ⟨hpn_not, hrest_nd⟩ := List.nodup_cons.mp hnd'
    have hset : dictSet init pn v = init ++ [(pn, v)] := by
      unfold dictSet
      rw [if_neg (by simp [hdisj (pn, v) (List.mem_cons_self _ _)])]
    have hstep : loadNode init ((pn, v) :: rest) = loadNode (init ++ [(pn, v)]) rest := by
      unfold loadNode
      rw [List.foldl_cons]
      rw [show dictSet init (pn, v).1 (pn, v).2 = init ++ [(pn, v)] from hset]
    rw [hstep]
    rw [ih hrest_nd ?hdisj2, List.append_assoc]
    · rfl
    case hdisj2 =>
      intro pv2 hpv2
      refine lookup_append_none (hdisj pv2 (List.mem_cons_of_mem _ hpv2)) ?_
      intro heq
      have hmem : pv2.1 ∈ rest.map Prod.fst := List.mem_map_of_mem Prod.fst hpv2
      rw [heq] at hmem
      exact hpn_not hmem

theorem loadNode_nil {qs : ParamGroup} (hnd : (qs.map Prod.fst).Nodup) :
    loadNode [] qs = qs := by
  have h := @loadNode_append qs [] hnd (fun pv _ => rfl)
  simpa using h

theorem loadNodes_canonical {p1 p2 p3 p4 p5 : ParamGroup}
    (h1 : (p1.map Prod.fst).Nodup) (h2 : (p2.map Prod.fst).Nodup)
    (h3 : (p3.map Prod.fst).Nodup) (h4 : (p4.map Prod.fst).Nodup)
    (h5 : (p5.map Prod.fst).Nodup) :
    loadNodes [("x", p1), ("y", p2), ("w", p3), ("mu_tau", p4), ("z", p5)] =
      some ⟨some p1, some p2, some p3, some p4, some p5⟩ := by
  show some (⟨some (loadNode [] p1), some (loadNode [] p2), some (loadNode [] p3),
    some (loadNode [] p4), some (loadNode [] p5)⟩ : Nodes) = _
  rw [loadNode_nil h1, loadNode_nil h2, loadNode_nil h3, loadNode_nil h4,
    loadNode_nil h5]

theorem loadPosGroup_of_savePos {kmer : String} {m : GMM} {pg : PosGroup}
    (h : savePos kmer m = some pg) :
    loadPosGroup pg = some (loadedOf m) ∧ pg.kmer = kmer := by
  obtain ⟨hpg, d1, d2, d3, d4, d5⟩ := savePos_some h
  subst hpg
  constructor
  · unfold loadPosGroup
    rw [show (⟨kmer, m.info, [("x", m.nodes.x.getD []), ("y", m.nodes.y.getD []),
      ("w", m.nodes.w.getD []), ("mu_tau", m.nodes.mu_tau.getD []),
      ("z", m.nodes.z.getD [])]⟩ : PosGroup).nodes =
      [("x", m.nodes.x.getD []), ("y", m.nodes.y.getD []), ("w", m.nodes.w.getD []),
       ("mu_tau", m.nodes.mu_tau.getD []), ("z", m.nodes.z.getD [])] from rfl]
    rw [loadNodes_canonical d1 d2 d3 d4 d5]
    rfl
  · rfl

theorem loadPosGroup_canon {pg : PosGroup} (h : CanonPG pg) :
    (loadPosGroup pg).isSome = true := by
  obtain ⟨p1, p2, p3, p4, p5, heq, n1, n2, n3, n4, n5⟩ := h
  unfold loadPosGroup
  rw [heq, loadNodes_canonical n1 n2 n3 n4 n5]
  rfl

theorem insertModel_inserts :
    ∀ {F : ModelFile} {idx pos : String} {pg : PosGroup} {F2 : ModelFile},
    insertModel F idx pos pg = some F2 → pgLocated F2 idx pos = some pg := by
  intro F
  induction F with
  | nil =>
    intro idx pos pg F2 h
    unfold insertModel at h
    simp only [Option.some.injEq] at h
    subst h
    unfold pgLocated
    simp [List.lookup]
  | cons ig rest ih =>
    intro idx pos pg F2 h
    obtain ⟨i0, g0⟩ := ig
    unfold insertModel at h
    by_cases hi : i0 = idx
    · rw [if_pos hi] at h
      subst hi
      unfold insertPos at h
      by_cases hl : ((g0.lookup pos).isSome : Bool) = true
      · rw [if_pos hl] at h; simp at h
      · rw [if_neg hl] at h
        simp only [Option.map_some', Option.some.injEq] at h
        subst h
        unfold pgLocated
        rw [List.lookup_cons]
        simp only [beq_self_eq_true]
        rw [Option.some_bind,
          lookup_append_right (Option.not_isSome_iff_eq_none.mp (by simpa using hl)),
          List.lookup_cons]
        simp
    · rw [if_neg hi] at h
      cases hrec : insertModel rest idx pos pg with
      | none => rw [hrec] at h; simp at h
      | some F2' =>
        rw [hrec] at h
        simp only [Option.map_some', Option.some.injEq] at h
        subst h
        unfold pgLocated
        rw [List.lookup_cons,
          show (idx == i0) = false from beq_eq_false_iff_ne.mpr (fun e => hi e.symm)]
        exact ih hrec

theorem insertModel_preserves :
    ∀ {F : ModelFile} {idx pos : String} {pg : PosGroup} {F2 : ModelFile}
      {i p : String} {q : PosGroup},
    insertModel F idx pos pg = some F2 → pgLocated F i p = some q →
    pgLocated F2 i p = some q := by
  intro F
  induction F with
  | nil =>
    intro idx pos pg F2 i p q _ hloc
    unfold pgLocated at hloc
    simp [List.lookup] at hloc
  | cons ig rest ih =>
    intro idx pos pg F2 i p q h hloc
    obtain ⟨i0, g0⟩ := ig
    unfold insertModel at h
    by_cases hi : i0 = idx
    · rw [if_pos hi] at h
      subst hi
      unfold insertPos at h
      by_cases hl : ((g0.lookup pos).isSome : Bool) = true
      · rw [if_pos hl] at h; simp at h
      · rw [if_neg hl] at h
        simp only [Option.map_some', Option.some.injEq] at h
        subst h
        unfold pgLocated at hloc ⊢
        rw [List.lookup_cons] at hloc ⊢
        cases hii : (i == i0) with
        | true => rw [hii] at hloc; exact lookup_append_left hloc
        | false => rw [hii] at hloc; exact hloc
    · rw [if_neg hi] at h
      cases hrec : insertModel rest idx pos pg with
      | none => rw [hrec] at h; simp at h
      | some F2' =>
        rw [hrec] at h
        simp only [Option.map_some', Option.some.injEq] at h
        subst h
        unfold pgLocated at hloc ⊢
        rw [List.lookup_cons] at hloc ⊢
        cases hii : (i == i0) with
        | true => rw [hii] at hloc; exact hloc
        | false => rw [hii] at hloc; exact ih hrec hloc

theorem insertModel_keys :
    ∀ {F : ModelFile} {idx pos : String} {pg : PosGroup} {F2 : ModelFile},
    insertModel F idx pos pg = some F2 →
    (idx ∈ F.map Prod.fst ∧ F2.map Prod.fst = F.map Prod.fst) ∨
    (idx ∉ F.map Prod.fst ∧ F2.map Prod.fst = F.map Prod.fst ++ [idx]) := by
  intro F
  induction F with
  | nil =>
    intro idx pos pg F2 h
    unfold insertModel at h
    simp only [Option.some.injEq] at h
    subst h
    right
    exact ⟨by simp, rfl⟩
  | cons ig rest ih =>
    intro idx pos pg F2 h
    obtain ⟨i0, g0⟩ := ig
    unfold insertModel at h
    by_cases hi : i0 = idx
    · rw [if_pos hi] at h
      subst hi
      unfold insertPos at h
      by_cases hl : ((g0.lookup pos).isSome : Bool) = true
      · rw [if_pos hl] at h; simp at h
      · rw [if_neg hl] at h
        simp only [Option.map_some', Option.some.injEq] at h
        subst h
        left
        exact ⟨by simp, rfl⟩
    · rw [if_neg hi] at h
      cases hrec : insertModel rest idx pos pg with
      | none => rw [hrec] at h; simp at h
      | some F2' =>
        rw [hrec] at h
        simp only [Option.map_some', Option.some.injEq] at h
        subst h
        rcases ih hrec with ⟨hmem, hkeys⟩ | ⟨hmem, hkeys⟩
        · left
          exact ⟨List.mem_cons_of_mem _ hmem, by simp [hkeys]⟩
        · right
          refine ⟨?_, by simp [hkeys]⟩
          intro hc
          rcases List.mem_cons.mp hc with hc | hc
          · exact hi (show i0 = idx by simpa using hc.symm)
          · exact hmem hc

theorem insertModel_canonFile {F : ModelFile} {idx pos : String} {pg : PosGroup}
    {F2 : ModelFile} (h : insertModel F idx pos pg = some F2) (hF : CanonFile F)
    (hpg : CanonPG pg) : CanonFile F2 := by
  induction F generalizing F2 with
  | nil =>
    unfold insertModel at h
    simp only [Option.some.injEq] at h
    subst h
    refine ⟨by simp, ?_⟩
    intro ig hig
    rcases List.mem_singleton.mp hig with rfl
    exact ⟨by simp, by simp, fun pp hpp => by
      rcases List.mem_singleton.mp hpp with rfl
      exact hpg⟩
  | cons ig0 rest ih =>
    obtain ⟨i0, g0⟩ := ig0
    obtain ⟨hkeys, hentries⟩ := hF
    have hkeys0 : (i0 :: rest.map Prod.fst).Nodup := by simpa using hkeys
    have hkeys' : i0 ∉ rest.map Prod.fst ∧ (rest.map Prod.fst).Nodup :=
      List.nodup_cons.mp hkeys0
    unfold insertModel at h
    by_cases hi : i0 = idx
    · rw [if_pos hi] at h
      subst hi
      unfold insertPos at h
      by_cases hl : ((g0.lookup pos).isSome : Bool) = true
      · rw [if_pos hl] at h; simp at h
      · rw [if_neg hl] at h
        simp only [Option.map_some', Option.some.injEq] at h
        subst h
        refine ⟨by simpa using hkeys, ?_⟩
        intro ig hig
        rcases List.mem_cons.mp hig with rfl | hig
        · obtain ⟨-, hnd0, hcan0⟩ := hentries (i0, g0) (List.mem_cons_self _ _)
          refine ⟨by simp, ?_, ?_⟩
          · rw [List.map_append]
            exact nodup_concat hnd0
              (lookup_none_not_mem (Option.not_isSome_iff_eq_none.mp (by simpa using hl)))
          · intro pp hpp
            rcases List.mem_append.mp hpp with hpp | hpp
            · exact hcan0 pp hpp
            · rcases List.mem_singleton.mp hpp with rfl
              exact hpg
        · exact hentries ig (List.mem_cons_of_mem _ hig)
    · rw [if_neg hi] at h
      cases hrec : insertModel rest idx pos pg with
      | none => rw [hrec] at h; simp at h
      | some F2' =>
        rw [hrec] at h
        simp only [Option.map_some', Option.some.injEq] at h
        subst h
        have hrestCanon : CanonFile rest :=
          ⟨hkeys'.2, fun ig hig => hentries ig (List.mem_cons_of_mem _ hig)⟩
        have hF2' := ih hrec hrestCanon
        refine ⟨?_, ?_⟩
        · rw [List.map_cons]
          refine List.nodup_cons.mpr ⟨?_, hF2'.1⟩
          rcases insertModel_keys hrec with ⟨-, hk⟩ | ⟨-, hk⟩
          · rw [hk]; exact hkeys'.1
          · rw [hk]
            intro hc
            rcases List.mem_append.mp hc with hc | hc
            · exact hkeys'.1 hc
            · exact hi (by simpa using List.mem_singleton.mp hc)
        · intro ig hig
          rcases List.mem_cons.mp hig with rfl | hig
          · exact hentries _ (List.mem_cons_self _ _)
          · exact hF2'.2 ig hig

theorem saveModelsAux_preserves :
    ∀ {M : List ((String × String × String) × GMM)} {file F : ModelFile}
      {i p : String} {q : PosGroup},
    saveModelsAux file M = some F → pgLocated file i p = some q →
    pgLocated F i p = some q := by
  intro M
  induction M with
  | nil =>
    intro file F i p q h hloc
    unfold saveModelsAux at h
    simp only [Option.some.injEq] at h
    subst h
    exact hloc
  | cons km rest ih =>
    intro file F i p q h hloc
    obtain ⟨key, m⟩ := km
    unfold saveModelsAux at h
    cases hsp : savePos key.2.2 m with
    | none => rw [hsp] at h; simp at h
    | some pg =>
      rw [hsp] at h
      simp only [Option.pure_def, Option.bind_eq_bind, Option.some_bind] at h
      cases hins : insertModel file key.1 key.2.1 pg with
      | none => rw [hins] at h; simp at h
      | some file2 =>
        rw [hins] at h
        simp only [Option.pure_def, Option.bind_eq_bind, Option.some_bind] at h
        exact ih h (insertModel_preserves hins hloc)

theorem saveModelsAux_canon :
    ∀ {M : List ((String × String × String) × GMM)} {file F : ModelFile},
    saveModelsAux file M = some F → CanonFile file → CanonFile F := by
  intro M
  induction M with
  | nil =>
    intro file F h hc
    unfold saveModelsAux at h
    simp only [Option.some.injEq] at h
    subst h
    exact hc
  | cons km rest ih =>
    intro file F h hc
    obtain ⟨key, m⟩ := km
    unfold saveModelsAux at h
    cases hsp : savePos key.2.2 m with
    | none => rw [hsp] at h; simp at h
    | some pg =>
      rw [hsp] at h
      simp only [Option.pure_def, Option.bind_eq_bind, Option.some_bind] at h
      cases hins : insertModel file key.1 key.2.1 pg with
      | none => rw [hins] at h; simp at h
      | some file2 =>
        rw [hins] at h
        simp only [Option.pure_def, Option.bind_eq_bind, Option.some_bind] at h
        exact ih h (insertModel_canonFile hins hc (savePos_canonPG hsp))

theorem saveModelsAux_located :
    ∀ {M : List ((String × String × String) × GMM)} {file F : ModelFile},
    saveModelsAux file M = some F →
    ∀ km ∈ M, ∃ pg, savePos km.1.2.2 km.2 = some pg ∧
      pgLocated F km.1.1 km.1.2.1 = some pg := by
  intro M
  induction M with
  | nil =>
    intro file F _ km hkm
    exact absurd hkm (List.not_mem_nil km)
  | cons km0 rest ih =>
    intro file F h km hkm
    obtain ⟨key, m⟩ := km0
    unfold saveModelsAux at h
    cases hsp : savePos key.2.2 m with
    | none => rw [hsp] at h; simp at h
    | some pg =>
      rw [hsp] at h
      simp only [Option.pure_def, Option.bind_eq_bind, Option.some_bind] at h
      cases hins : insertModel file key.1 key.2.1 pg with
      | none => rw [hins] at h; simp at h
      | some file2 =>
        rw [hins] at h
        simp only [Option.pure_def, Option.bind_eq_bind, Option.some_bind] at h
        rcases List.mem_cons.mp hkm with rfl | hkm'
        · exact ⟨pg, hsp,
            saveModelsAux_preserves h (insertModel_inserts hins)⟩
        · exact ih h km hkm'

theorem loadIdxGroup_eq {i : String} :
    ∀ {g : List (String × PosGroup)},
    (∀ pp ∈ g, (loadPosGroup pp.2).isSome = true) →
    loadIdxGroup i g = some (g.map (fun pp => ((i, pp.1, pp.2.kmer), loadedOfPG pp.2))) := by
  intro g
  induction g with
  | nil => intro _; rfl
  | cons pp rest ih =>
    intro hps
    obtain ⟨p, pg⟩ := pp
    unfold loadIdxGroup
    obtain ⟨mm, hmm⟩ := Option.isSome_iff_exists.mp (hps (p, pg) (List.mem_cons_self _ _))
    rw [hmm]
    simp only [Option.pure_def, Option.bind_eq_bind, Option.some_bind]
    rw [ih (fun pp2 h2 => hps pp2 (List.mem_cons_of_mem _ h2))]
    simp only [Option.some_bind, Option.some.injEq, List.map_cons]
    have hm : loadedOfPG pg = mm := by
      unfold loadedOfPG
      rw [hmm]
      rfl
    rw [hm]

theorem load_models_eq :
    ∀ {F : ModelFile},
    (∀ ig ∈ F, ∀ pp ∈ ig.2, (loadPosGroup pp.2).isSome = true) →
    load_models F = some (flatItems F) := by
  intro F
  induction F with
  | nil => intro _; rfl
  | cons ig rest ih =>
    intro hps
    obtain ⟨i, g⟩ := ig
    unfold load_models
    rw [loadIdxGroup_eq (fun pp hpp => hps (i, g) (List.mem_cons_self _ _) pp hpp)]
    simp only [Option.pure_def, Option.bind_eq_bind, Option.some_bind]
    rw [ih (fun ig2 h2 => hps ig2 (List.mem_cons_of_mem _ h2))]
    simp only [Option.some_bind, Option.some.injEq]
    rw [show flatItems ((i, g) :: rest) =
      g.map (fun pp => ((i, pp.1, pp.2.kmer), loadedOfPG pp.2)) ++ flatItems rest from
      List.flatMap_cons ..]

theorem load_models_of_canon {F : ModelFile} (hc : CanonFile F) :
    load_models F = some (flatItems F) :=
  load_models_eq (fun ig hig pp hpp => loadPosGroup_canon ((hc.2 ig hig).2.2 pp hpp))

theorem savePos_of_loaded {pg : PosGroup} (h : CanonPG pg) :
    savePos pg.kmer (loadedOfPG pg) = some ⟨pg.kmer, [], pg.nodes⟩ := by
  obtain ⟨p1, p2, p3, p4, p5, heq, n1, n2, n3, n4, n5⟩ := h
  have hload : loadPosGroup pg =
      some (GMM.ofInits none ⟨some p1, some p2, some p3, some p4, some p5⟩) := by
    unfold loadPosGroup
    rw [heq, loadNodes_canonical n1 n2 n3 n4 n5]
    rfl
  have hl : loadedOfPG pg =
      ⟨[], ⟨some p1, some p2, some p3, some p4, some p5⟩⟩ := by
    unfold loadedOfPG
    rw [hload]
    rfl
  have s1 : saveNode (some p1) = some p1 := by
    unfold saveNode
    have h' := @writeItems_success encodeValue encodeValue_id p1 [] n1 (fun pv _ => rfl)
    simpa using h'
  have s2 : saveNode (some p2) = some p2 := by
    unfold saveNode
    have h' := @writeItems_success encodeValue encodeValue_id p2 [] n2 (fun pv _ => rfl)
    simpa using h'
  have s3 : saveNode (some p3) = some p3 := by
    unfold saveNode
    have h' := @writeItems_success encodeValue encodeValue_id p3 [] n3 (fun pv _ => rfl)
    simpa using h'
  have s4 : saveNode (some p4) = some p4 := by
    unfold saveNode
    have h' := @writeItems_success encodeValue encodeValue_id p4 [] n4 (fun pv _ => rfl)
    simpa using h'
  have s5 : saveNode (some p5) = some p5 := by
    unfold saveNode
    have h' := @writeItems_success encodeValue encodeValue_id p5 [] n5 (fun pv _ => rfl)
    simpa using h'
  rw [hl]
  unfold savePos saveNodes
  simp only [s1, s2, s3, s4, s5, Option.pure_def, Option.bind_eq_bind, Option.some_bind,
    Option.some.injEq]
  rw [show writeItems (fun _ v => v) ([] : ParamGroup) ([] : List (String × HValue)) =
    some [] from rfl]
  simp only [Option.some_bind, Option.some.injEq]
  rw [heq]
  rfl

theorem insertModel_new :
    ∀ {F : ModelFile} {idx pos : String} {pg : PosGroup},
    idx ∉ F.map Prod.fst →
    insertModel F idx pos pg = some (F ++ [(idx, [(pos, pg)])]) := by
  intro F
  induction F with
  | nil => intro idx pos pg _; rfl
  | cons ig rest ih =>
    intro idx pos pg hmem
    obtain ⟨i0, g0⟩ := ig
    have hi0 : i0 ≠ idx := by
      intro e
      exact hmem (by simp [e])
    unfold insertModel
    rw [if_neg hi0, ih (fun hm => hmem (List.mem_cons_of_mem _ hm))]
    rfl

theorem insertModel_last :
    ∀ {pre : ModelFile} {i p : String} {acc : List (String × PosGroup)} {pg' : PosGroup},
    i ∉ pre.map Prod.fst → acc.lookup p = none →
    insertModel (pre ++ [(i, acc)]) i p pg' = some (pre ++ [(i, acc ++ [(p, pg')])]) := by
  intro pre
  induction pre with
  | nil =>
    intro i p acc pg' _ hnone
    rw [List.nil_append, List.nil_append]
    unfold insertModel
    rw [if_pos rfl]
    unfold insertPos
    rw [if_neg (by simp [hnone])]
    rfl
  | cons ig rest ih =>
    intro i p acc pg' hpre hnone
    obtain ⟨i0, g0⟩ := ig
    have hi0 : i0 ≠ i := by
      intro e
      exact hpre (by simp [e])
    rw [List.cons_append]
    unfold insertModel
    rw [if_neg hi0, ih (fun hm => hpre (List.mem_cons_of_mem _ hm)) hnone]
    rfl

theorem saveModelsAux_append :
    ∀ {items1 items2 : List ((String × String × String) × GMM)} {file : ModelFile},
    saveModelsAux file (items1 ++ items2) =
      (saveModelsAux file items1).bind (fun f2 => saveModelsAux f2 items2) := by
  intro items1
  induction items1 with
  | nil => intro items2 file; rfl
  | cons it rest ih =>
    intro items2 file
    obtain ⟨key, m⟩ := it
    rw [List.cons_append]
    show (savePos key.2.2 m).bind (fun pg => (insertModel file key.1 key.2.1 pg).bind
        (fun file2 => saveModelsAux file2 (rest ++ items2))) =
      ((savePos key.2.2 m).bind (fun pg => (insertModel file key.1 key.2.1 pg).bind
        (fun file2 => saveModelsAux file2 rest))).bind (fun f2 => saveModelsAux f2 items2)
    cases savePos key.2.2 m with
    | none => rfl
    | some pg =>
      simp only [Option.some_bind]
      cases insertModel file key.1 key.2.1 pg with
      | none => rfl
      | some file2 =>
        simp only [Option.some_bind]
        exact @ih items2 file2

theorem block_save {i : String} :
    ∀ {g : List (String × PosGroup)} {pre : ModelFile} {acc : List (String × PosGroup)},
    i ∉ pre.map Prod.fst →
    (g.map Prod.fst).Nodup →
    (∀ pp ∈ g, CanonPG pp.2) →
    (∀ pp ∈ g, acc.lookup pp.1 = none) →
    saveModelsAux (pre ++ [(i, acc)])
        (g.map (fun pp => ((i, pp.1, pp.2.kmer), loadedOfPG pp.2))) =
      some (pre ++ [(i, acc ++ g.map (fun pp => (pp.1, ⟨pp.2.kmer, [], pp.2.nodes⟩)))]) := by
  intro g
  induction g with
  | nil =>
    intro pre acc _ _ _ _
    simp [saveModelsAux]
  | cons pp rest ih =>
    intro pre acc hpre hnd hcan hdisj
    obtain ⟨p, pg⟩ := pp
    have hnd' : (p :: rest.map Prod.fst).Nodup := by simpa using hnd
    obtain ⟨hp_not, hrest_nd⟩ := List.nodup_cons.mp hnd'
    rw [List.map_cons]
    show (savePos ((i, p, pg.kmer) : String × String × String).2.2 (loadedOfPG pg)).bind
        (fun pgE => (insertModel (pre ++ [(i, acc)]) i p pgE).bind
          (fun file2 => saveModelsAux file2
            (rest.map (fun pp => ((i, pp.1, pp.2.kmer), loadedOfPG pp.2))))) = _
    rw [show ((i, p, pg.kmer) : String × String × String).2.2 = pg.kmer from rfl,
      savePos_of_loaded (hcan (p, pg) (List.mem_cons_self _ _))]
    simp only [Option.some_bind]
    rw [insertModel_last hpre (hdisj (p, pg) (List.mem_cons_self _ _))]
    simp only [Option.some_bind]
    rw [ih hpre hrest_nd (fun pp2 h2 => hcan pp2 (List.mem_cons_of_mem _ h2)) ?hdisj2]
    · rw [List.append_assoc]
      rfl
    case hdisj2 =>
      intro pp2 hpp2
      refine lookup_append_none (hdisj pp2 (List.mem_cons_of_mem _ hpp2)) ?_
      intro heq
      have hmem : pp2.1 ∈ rest.map Prod.fst := List.mem_map_of_mem Prod.fst hpp2
      rw [heq] at hmem
      exact hp_not hmem

theorem file_items_save :
    ∀ {F : ModelFile} {pre : ModelFile},
    CanonFile F → (∀ i ∈ F.map Prod.fst, i ∉ pre.map Prod.fst) →
    saveModelsAux pre (flatItems F) = some (pre ++ eraseInfo F) := by
  intro F
  induction F with
  | nil =>
    intro pre _ _
    simp [flatItems, eraseInfo, saveModelsAux]
  | cons ig rest ih =>
    intro pre hcf hdisj
    obtain ⟨i, g⟩ := ig
    obtain ⟨hk, hen⟩ := hcf
    obtain ⟨hne, hgnd, hgcan⟩ := hen (i, g) (List.mem_cons_self _ _)
    have hk' : (i :: rest.map Prod.fst).Nodup := by simpa using hk
    obtain ⟨hi_not, hkrest⟩ := List.nodup_cons.mp hk'
    have hipre : i ∉ pre.map Prod.fst := hdisj i (by simp)
    rw [show flatItems ((i, g) :: rest) =
      g.map (fun pp => ((i, pp.1, pp.2.kmer), loadedOfPG pp.2)) ++ flatItems rest from
      List.flatMap_cons ..]
    rw [saveModelsAux_append]
    cases g with
    | nil => exact absurd rfl hne
    | cons pp0 grest =>
      obtain ⟨p0, pg0⟩ := pp0
      have hgnd' : (p0 :: grest.map Prod.fst).Nodup := by simpa using hgnd
      obtain ⟨hp0_not, hgrest_nd⟩ := List.nodup_cons.mp hgnd'
      have hfirst : saveModelsAux pre
          (((p0, pg0) :: grest).map (fun pp => ((i, pp.1, pp.2.kmer), loadedOfPG pp.2))) =
          some (pre ++ [(i, ((p0, pg0) :: grest).map
            (fun pp => (pp.1, ⟨pp.2.kmer, [], pp.2.nodes⟩)))]) := by
        rw [List.map_cons]
        show (savePos ((i, p0, pg0.kmer) : String × String × String).2.2
            (loadedOfPG pg0)).bind
          (fun pgE => (insertModel pre i p0 pgE).bind
            (fun file2 => saveModelsAux file2
              (grest.map (fun pp => ((i, pp.1, pp.2.kmer), loadedOfPG pp.2))))) = _
        rw [show ((i, p0, pg0.kmer) : String × String × String).2.2 = pg0.kmer from rfl,
          savePos_of_loaded (hgcan (p0, pg0) (List.mem_cons_self _ _))]
        simp only [Option.some_bind]
        rw [insertModel_new hipre]
        simp only [Option.some_bind]
        rw [block_save hipre hgrest_nd
          (fun pp2 h2 => hgcan pp2 (List.mem_cons_of_mem _ h2)) ?hdisj3]
        · rw [List.map_cons]
          rfl
        case hdisj3 =>
          intro pp2 hpp2
          rw [List.lookup_cons]
          have hne2 : pp2.1 ≠ p0 := by
            intro heq
            have hmem : pp2.1 ∈ grest.map Prod.fst := List.mem_map_of_mem Prod.fst hpp2
            rw [heq] at hmem
            exact hp0_not hmem
          rw [show (pp2.1 == p0) = false from beq_eq_false_iff_ne.mpr hne2]
          rfl
      rw [hfirst]
      simp only [Option.some_bind]
      have hrestCanon : CanonFile rest :=
        ⟨hkrest, fun ig2 hig2 => hen ig2 (List.mem_cons_of_mem _ hig2)⟩
      rw [ih hrestCanon ?hdisj4]
      · rw [show eraseInfo ((i, (p0, pg0) :: grest) :: rest) =
          (i, ((p0, pg0) :: grest).map
            (fun pp => (pp.1, ⟨pp.2.kmer, [], pp.2.nodes⟩))) :: eraseInfo rest
          from rfl]
        rw [List.append_assoc]
        rfl
      case hdisj4 =>
        intro i2 hi2 hc
        rw [List.map_append] at hc
        rcases List.mem_append.mp hc with hc | hc
        · exact hdisj i2 (List.mem_cons_of_mem _ hi2) hc
        · have : i2 = i := by simpa using hc
          rw [this] at hi2
          exact hi_not hi2

/-! ### Claims about the model store -/

/-- Counterexample for C1 as stated: for a model whose `info` metadata is
non-empty, saving, loading and saving again does not reproduce the same
container, because `load_models` never reads the `info` group back (the
reading loop is commented out in the source), so the second save writes
empty `info` groups. -/
theorem save_load_info_counterexample :
    (save_models infoModels).isSome = true ∧
    (save_models infoModels).bind (fun F => (load_models F).bind save_models) ≠
      save_models infoModels := by decide

/-- Claim C1 (amended): whenever `save_models` succeeds on a mapping,
`load_models` on the resulting container succeeds and returns, for every
saved key, a model with identical node parameter arrays (same named arrays
with the same shapes and values, `group_names` ordering included) under the
identical key (hence identical context text), and a second save of the
loaded result reproduces the same container except that every `info` group
is emptied (`info` is dropped by `load_models`), so the round trip is exact
precisely up to the stored `info` metadata. -/
theorem save_load_roundtrip
    {M : List ((String × String × String) × GMM)} {F : ModelFile}
    (hsave : save_models M = some F)
    {km : (String × String × String) × GMM} (hkm : km ∈ M) :
    load_models F = some (flatItems F) ∧
    (km.1, loadedOf km.2) ∈ flatItems F ∧
    save_models (flatItems F) = some (eraseInfo F) := by
  have hcanon : CanonFile F :=
    saveModelsAux_canon hsave
      ⟨List.nodup_nil, fun ig hig => absurd hig (List.not_mem_nil ig)⟩
  refine ⟨load_models_of_canon hcanon, ?_, ?_⟩
  · obtain ⟨pg, hsp, hloc⟩ := saveModelsAux_located hsave km hkm
    obtain ⟨hlp, hkmer⟩ := loadPosGroup_of_savePos hsp
    unfold pgLocated at hloc
    cases hg : F.lookup km.1.1 with
    | none => rw [hg] at hloc; simp at hloc
    | some g =>
      rw [hg] at hloc
      simp only [Option.some_bind] at hloc
      have higF : (km.1.1, g) ∈ F := lookup_mem hg
      have hppg : (km.1.2.1, pg) ∈ g := lookup_mem hloc
      apply List.mem_flatMap.mpr
      refine ⟨(km.1.1, g), higF, ?_⟩
      have hel : ((km.1.1, km.1.2.1, pg.kmer), loadedOfPG pg) =
          (km.1, loadedOf km.2) := by
        rw [hkmer]
        have hl2 : loadedOfPG pg = loadedOf km.2 := by
          unfold loadedOfPG
          rw [hlp]
          rfl
        rw [hl2]
      rw [← hel]
      exact List.mem_map_of_mem _ hppg
  · unfold save_models
    have hfs := @file_items_save F [] hcanon
      (fun i _ hmem => absurd hmem (List.not_mem_nil i))
    simpa using hfs

/-- Witness for the amended C1 on the concrete fixture with non-empty info. -/
theorem save_load_roundtrip_witness :
    load_models infoFile = some (flatItems infoFile) ∧
    ((("g", "1", "AAAAA"), loadedOf infoGMM) ∈ flatItems infoFile) ∧
    save_models (flatItems infoFile) = some (eraseInfo infoFile) :=
  save_load_roundtrip
    (show save_models infoModels = some infoFile by decide)
    (show ((("g", "1", "AAAAA"), infoGMM) : (String × String × String) × GMM) ∈
      infoModels by unfold infoModels; exact List.mem_singleton.mpr rfl)
